import Mathlib

/-!
# myday-service: the per-user rating record

A shallow embedding of `main.go`: the rating validator, the tag merge, the
date codec (wire and storage encodings) and the handlers that create and
update the record of a user in the document store.

* Go strings are modelled by `String` (tags, feelings, user names) and, where
  the code walks a text byte by byte (the date codec), by `List Char`: the
  texts the codec accepts are ASCII, and a character outside ASCII is
  rejected like the bytes that encode it.
* What the program takes from its environment is an input of the model: the
  offset of the local time zone (`zone`), and whether the driver reports an
  error for a lookup or a write (`Faults`).
* `log.Fatal` ends the process; a function that may call it returns an
  `Outcome`.
* The library functions the codec calls (`time.Parse`, `Time.Format`,
  `strings.Trim`, `json.Marshal`, the BSON date helpers of the driver) are
  modelled after their sources.
-/

namespace MyDay

/-! ## Data model -/

/-- The location a `time.Time` carries: `time.UTC` or `time.Local`. -/
inductive Location where
  | UTC
  | Local
deriving DecidableEq, Repr

/-- A `time.Time` without monotonic reading: an instant (seconds since the
Unix epoch and nanoseconds within the second) and a location. -/
structure Time where
  sec : Int
  nsec : Nat
  loc : Location
deriving DecidableEq, Repr

/-- Source `type RatingDate time.Time`. -/
abbrev RatingDate := Time

/-- Source `type Rating struct`. -/
structure Rating where
  Date : RatingDate
  Description : String
  Feeling : String
  Tags : List String
deriving DecidableEq, Repr

/-- Source `type UserData struct`; `ID` is `nil` until the store has assigned an
identity (`bson:"_id,omitempty"`). -/
structure UserData where
  ID : Option Nat
  Username : String
  Ratings : List Rating
  Tags : List String
deriving DecidableEq, Repr

/-- Outcome of a call that may end the process: `log.Fatal` logs and calls
`os.Exit(1)`, so the statements after it never run. -/
inductive Outcome (α : Type) where
  | returned (a : α)
  | exited (code : Nat)
deriving DecidableEq, Repr

/-- The package variable `validFeelingsList`. -/
def validFeelingsList : List String :=
  ["Angry", "Bored", "Great", "Good", "Normal", "Sad"]

/-! ## Tag set -/

/-- Source `func existingTag(tags []string, newTag string) bool`. -/
def existingTag : List String → String → Bool
  | [], _ => false
  | tag :: tags, newTag => if tag == newTag then true else existingTag tags newTag

/-- Source `func updateTags(userData *UserData, newTags []string)`: the loop over
`newTags`, with the record threaded through. -/
def updateTags (userData : UserData) : List String → UserData
  | [] => userData
  | newTag :: newTags =>
    if !existingTag userData.Tags newTag then
      updateTags { userData with Tags := userData.Tags ++ [newTag] } newTags
    else
      updateTags userData newTags

/-- Specification of the tag merge, in the words of the spec: the values of a
list, each once, in the order of their first occurrence. -/
def firstOccurrences : List String → List String
  | [] => []
  | x :: xs => x :: (firstOccurrences xs).filter (fun y => decide (y ≠ x))

/-- Specification of the tag merge: the existing tags followed by the new
values that are not among them, each once, in first-occurrence order. -/
def mergeSpec (existingTags newTags : List String) : List String :=
  existingTags ++ firstOccurrences (newTags.filter (fun x => decide (x ∉ existingTags)))

/-! ## Rating validator -/

/-- Source `func validFeeling(feeling string) bool`: the loop over a list of valid
feelings. -/
def validFeelingIn : List String → String → Bool
  | [], _ => false
  | validFeeling :: rest, feeling =>
    if validFeeling == feeling then true else validFeelingIn rest feeling

/-- Source `func validFeeling(feeling string) bool`. -/
def validFeeling (feeling : String) : Bool :=
  validFeelingIn validFeelingsList feeling

/-- Source `func validRating(rating *Rating) bool`; `none` is the nil pointer and
`len` is the length in bytes. -/
def validRating : Option Rating → Bool
  | none => false
  | some rating => decide (rating.Feeling.utf8ByteSize > 0) && validFeeling rating.Feeling

/-! ## Model of the Go standard library: package `time`

The calendar arithmetic of `time.Date`, `Time.Date`, `time.Parse` and
`Time.Format` for the layout `2006-01-02`, following the library's
days-since-epoch algorithm over the proleptic Gregorian calendar. -/

/-- Errors of `time.Parse`. -/
inductive ParseError where
  | errBad
  | monthOutOfRange
  | dayOutOfRange
  | extraText
deriving DecidableEq, Repr

/-- Library `time.isLeap`. -/
def isLeap (year : Int) : Bool :=
  year % 4 == 0 && (year % 100 != 0 || year % 400 == 0)

/-- Library `time.daysBefore`: the number of days in a non-leap year before each
month, with a final entry for the whole year. -/
def daysBefore : List Nat :=
  [0, 31, 59, 90, 120, 151, 181, 212, 243, 273, 304, 334, 365]

/-- Library `time.daysIn`. -/
def daysIn (month : Nat) (year : Int) : Nat :=
  if month = 2 ∧ isLeap year = true then 29
  else daysBefore.getD month 0 - daysBefore.getD (month - 1) 0

/-- Library `time.absoluteZeroYear`. -/
def absoluteZeroYear : Int := -292277022399

/-- Library `time.secondsPerDay`. -/
def secondsPerDay : Nat := 86400

/-- Library `time.daysPer400Years`. -/
def daysPer400Years : Nat := 365 * 400 + 97

/-- Library `time.daysPer100Years`. -/
def daysPer100Years : Nat := 365 * 100 + 24

/-- Library `time.daysPer4Years`. -/
def daysPer4Years : Nat := 365 * 4 + 1

/-- Library `time.unixToInternal + time.internalToAbsolute`: seconds from the absolute
epoch (1 January of `absoluteZeroYear`) to the Unix epoch. -/
def unixToAbsolute : Int :=
  (1969 * 365 + 1969 / 4 - 1969 / 100 + 1969 / 400) * 86400 + (1 - absoluteZeroYear) * 31556952

/-- Conversion to `uint64`. -/
def toUint64 (x : Int) : Nat := (x % 2 ^ 64).toNat

/-- Conversion of a `uint64` to `int64`. -/
def toInt64 (u : Nat) : Int :=
  if u % 2 ^ 64 < 2 ^ 63 then (u % 2 ^ 64 : Nat) else (u % 2 ^ 64 : Nat) - 2 ^ 64

/-- The value an `int64` computation keeps of a mathematical result: its
representative modulo `2 ^ 64` in the `int64` range. -/
def wrapInt64 (x : Int) : Int := toInt64 (toUint64 x)

/-- Library `time.daysSinceEpoch`: days from the absolute epoch to 1 January of
`year`. -/
def daysSinceEpoch (year : Int) : Nat :=
  let y := toUint64 (year - absoluteZeroYear)
  let n400 := y / 400
  let y := y - 400 * n400
  let d := daysPer400Years * n400
  let n100 := y / 100
  let y := y - 100 * n100
  let d := d + daysPer100Years * n100
  let n4 := y / 4
  let y := y - 4 * n4
  let d := d + daysPer4Years * n4
  d + 365 * y

/-- Library `time.Date(year, month, day, 0, 0, 0, 0, time.UTC)` for a month in
1..12 and a day of that month, which is how `time.Parse` calls it (the
normalisation of out-of-range arguments leaves such arguments as they are). -/
def Date (year : Int) (month day : Nat) : Time :=
  let d := daysSinceEpoch year + daysBefore.getD (month - 1) 0
  let d := if isLeap year = true ∧ month ≥ 3 then d + 1 else d
  let d := d + (day - 1)
  let abs := d * secondsPerDay
  { sec := wrapInt64 (toInt64 abs - unixToAbsolute), nsec := 0, loc := Location.UTC }

/-- Library `Time.abs`: seconds since the absolute epoch of the wall clock that `t`
shows in its location; `zone` gives the offset in seconds east of UTC that
`time.Local` has at an instant. -/
def Time.abs (zone : Int → Int) (t : Time) : Nat :=
  match t.loc with
  | Location.UTC => toUint64 (t.sec + unixToAbsolute)
  | Location.Local => toUint64 (t.sec + zone t.sec + unixToAbsolute)

/-- The first half of `time.absDate`: the year, counted from the absolute
epoch, and the day within that year. -/
def absYearDay (abs : Nat) : Nat × Nat :=
  let d := abs / secondsPerDay
  let n := d / daysPer400Years
  let y := 400 * n
  let d := d - daysPer400Years * n
  let n := d / daysPer100Years
  let n := n - n / 4
  let y := y + 100 * n
  let d := d - daysPer100Years * n
  let n := d / daysPer4Years
  let y := y + 4 * n
  let d := d - daysPer4Years * n
  let n := d / 365
  let n := n - n / 4
  let y := y + n
  let d := d - 365 * n
  (y, d)

/-- The second half of `time.absDate`: month and day of month from the day
within the year. -/
def monthDay (leap : Bool) (yday : Nat) : Nat × Nat :=
  if leap = true ∧ yday = 31 + 29 - 1 then (2, 29)
  else
    let day := if leap = true ∧ yday > 31 + 29 - 1 then yday - 1 else yday
    let month := day / 31
    let stop := daysBefore.getD (month + 1) 0
    if day ≥ stop then (month + 2, day - stop + 1)
    else (month + 1, day - daysBefore.getD month 0 + 1)

/-- Library `time.absDate(abs, true)`: year, month and day of month. -/
def absDate (abs : Nat) : Int × Nat × Nat :=
  let yd := absYearDay abs
  let year : Int := toInt64 yd.1 + absoluteZeroYear
  (year, monthDay (isLeap year) yd.2)

/-- Library `Time.Date`. -/
def Time.Date (zone : Int → Int) (t : Time) : Int × Nat × Nat :=
  absDate (t.abs zone)

/-- The byte of a decimal digit. -/
def digitChar (d : Nat) : Char := Char.ofNat (48 + d)

/-- The test `'0' <= c && c <= '9'`. -/
def isDigitChar (c : Char) : Bool := decide (48 ≤ c.toNat ∧ c.toNat ≤ 57)

/-- The value `c - '0'` of a digit. -/
def digitVal (c : Char) : Nat := c.toNat - 48

/-- Library `time.appendInt`: the decimal form of `x`, zero-padded to `width`. -/
def appendInt (b : List Char) (x : Int) (width : Nat) : List Char :=
  let u := x.natAbs
  let b := if x < 0 then b ++ ['-'] else b
  if width = 2 ∧ u < 100 then
    b ++ [digitChar (u / 10), digitChar (u % 10)]
  else if width = 4 ∧ u < 10000 then
    b ++ [digitChar (u / 1000), digitChar (u / 100 % 10), digitChar (u / 10 % 10),
      digitChar (u % 10)]
  else
    let ds := Nat.toDigits 10 u
    b ++ List.replicate (width - ds.length) '0' ++ ds

/-- Library `Time.Format("2006-01-02")`. -/
def Format (zone : Int → Int) (t : Time) : List Char :=
  let ymd := t.Date zone
  let b := appendInt [] ymd.1 4
  let b := appendInt (b ++ ['-']) ymd.2.1 2
  appendInt (b ++ ['-']) ymd.2.2 2

/-- Library `time.isDigit`. -/
def isDigit (s : List Char) (i : Nat) : Bool :=
  match s.get? i with
  | none => false
  | some c => isDigitChar c

/-- Library `time.leadingInt` (the overflow guard aside): the leading run of digits
as a number, and the rest. -/
def leadingInt : List Char → Nat → Nat × List Char
  | [], x => (x, [])
  | c :: cs, x => if isDigitChar c then leadingInt cs (x * 10 + digitVal c) else (x, c :: cs)

/-- Library `time.atoi`. -/
def atoi (s : List Char) : Option Int :=
  let neg := decide (s.head? = some '-')
  let s := if s.head? = some '-' ∨ s.head? = some '+' then s.drop 1 else s
  let qr := leadingInt s 0
  if qr.2 ≠ [] then none
  else some (if neg then -(qr.1 : Int) else (qr.1 : Int))

/-- Library `time.getnum`. -/
def getnum (s : List Char) (fixed : Bool) : Option (Nat × List Char) :=
  if !isDigit s 0 then none
  else if !isDigit s 1 then
    if fixed then none else some (digitVal (s.getD 0 '0'), s.drop 1)
  else some (digitVal (s.getD 0 '0') * 10 + digitVal (s.getD 1 '0'), s.drop 2)

/-- Library `time.skip` for a literal chunk of the layout that holds no space. -/
def skip : List Char → List Char → Option (List Char)
  | value, [] => some value
  | [], _ :: _ => none
  | v :: value, p :: rest => if v ≠ p then none else skip value rest

/-- Library `time.Parse("2006-01-02", value)`. -/
def Parse (value : List Char) : Except ParseError Time :=
  -- stdLongYear
  if value.length < 4 ∨ isDigit value 0 = false then Except.error ParseError.errBad
  else
    match atoi (value.take 4) with
    | none => Except.error ParseError.errBad
    | some year =>
      match skip (value.drop 4) ['-'] with
      | none => Except.error ParseError.errBad
      | some value =>
        -- stdZeroMonth
        match getnum value true with
        | none => Except.error ParseError.errBad
        | some (month, value) =>
          if month ≤ 0 ∨ 12 < month then Except.error ParseError.monthOutOfRange
          else
            match skip value ['-'] with
            | none => Except.error ParseError.errBad
            | some value =>
              -- stdZeroDay
              match getnum value true with
              | none => Except.error ParseError.errBad
              | some (day, value) =>
                if value.length ≠ 0 then Except.error ParseError.extraText
                else if day < 1 ∨ day > daysIn month year then
                  Except.error ParseError.dayOutOfRange
                else Except.ok (Date year month day)

/-- Library `time.Unix(sec, nsec)`: the local time of that instant. -/
def Unix (sec nsec : Int) : Time :=
  let n := nsec.tdiv 1000000000
  let sec1 := if nsec < 0 ∨ nsec ≥ 1000000000 then sec + n else sec
  let nsec1 := if nsec < 0 ∨ nsec ≥ 1000000000 then nsec - n * 1000000000 else nsec
  let sec2 := if nsec1 < 0 then sec1 - 1 else sec1
  let nsec2 := if nsec1 < 0 then nsec1 + 1000000000 else nsec1
  { sec := sec2, nsec := nsec2.toNat, loc := Location.Local }

/-! ## Model of the libraries `strings`, `encoding/json` and the BSON driver -/

/-- The double quote. -/
def dquote : Char := Char.ofNat 34

/-- The backslash. -/
def backslash : Char := Char.ofNat 92

/-- Library `strings.Trim(s, cutset)`: `s` without the leading and trailing characters
that occur in `cutset`. -/
def Trim (s cutset : List Char) : List Char :=
  ((s.dropWhile (fun c => cutset.contains c)).reverse.dropWhile
    (fun c => cutset.contains c)).reverse

/-- A hexadecimal digit, as `encoding/json` writes it. -/
def hexChar (d : Nat) : Char :=
  if d < 10 then Char.ofNat (48 + d) else Char.ofNat (87 + d)

/-- The encoding of one character of a string by `json.Marshal` (with HTML
escaping, the default). -/
def jsonEscape (c : Char) : List Char :=
  if c = dquote ∨ c = backslash then [backslash, c]
  else if c = Char.ofNat 10 then [backslash, 'n']
  else if c = Char.ofNat 13 then [backslash, 'r']
  else if c = Char.ofNat 9 then [backslash, 't']
  else if c.toNat < 32 ∨ c = '<' ∨ c = '>' ∨ c = '&' ∨ c.toNat = 8232 ∨ c.toNat = 8233 then
    [backslash, 'u', hexChar (c.toNat / 4096 % 16), hexChar (c.toNat / 256 % 16),
      hexChar (c.toNat / 16 % 16), hexChar (c.toNat % 16)]
  else [c]

/-- Library `json.Marshal` of a string. -/
def jsonMarshalString (s : List Char) : List Char :=
  dquote :: (s.flatMap jsonEscape ++ [dquote])

/-- Library `primitive.NewDateTimeFromTime`: milliseconds since the Unix epoch,
`t.Unix()*1e3 + t.Nanosecond()/1e6` in `int64`. -/
def NewDateTimeFromTime (t : Time) : Int :=
  toInt64 (toUint64 (t.sec * 1000 + (t.nsec : Int) / 1000000))

/-- Library `primitive.DateTime.Time`. -/
def DateTimeTime (dt : Int) : Time :=
  Unix (dt.tdiv 1000) (dt.tmod 1000 * 1000000)

/-- Library `bsoncore.AppendDateTime`: eight bytes, little-endian. -/
def AppendDateTime (dst : List Nat) (dt : Int) : List Nat :=
  let u := toUint64 dt
  dst ++ [u % 256, u / 256 % 256, u / 256 ^ 2 % 256, u / 256 ^ 3 % 256, u / 256 ^ 4 % 256,
    u / 256 ^ 5 % 256, u / 256 ^ 6 % 256, u / 256 ^ 7 % 256]

/-- Library `bsoncore.ReadDateTime`. -/
def ReadDateTime (src : List Nat) : Int × List Nat × Bool :=
  match src with
  | b0 :: b1 :: b2 :: b3 :: b4 :: b5 :: b6 :: b7 :: rest =>
    (toInt64 (b0 + b1 * 256 + b2 * 256 ^ 2 + b3 * 256 ^ 3 + b4 * 256 ^ 4 + b5 * 256 ^ 5 +
      b6 * 256 ^ 6 + b7 * 256 ^ 7), rest, true)
  | _ => (0, src, false)

/-- Library `bsontype.DateTime`. -/
def bsontypeDateTime : Nat := 9

/-! ## Date codec -/

/-- Source `func (rd RatingDate) MarshalBSONValue() (bsontype.Type, []byte, error)`;
the error is always nil. -/
def MarshalBSONValue (rd : RatingDate) : Nat × List Nat :=
  let dt := NewDateTimeFromTime rd
  (bsontypeDateTime, AppendDateTime [] dt)

/-- Source `func (rd *RatingDate) UnmarshalBSONValue(t bsontype.Type, raw []byte) error`:
the target after the call and the error returned, or the end of the process
by `log.Fatal`. -/
def UnmarshalBSONValue (_rd : RatingDate) (raw : List Nat) :
    Outcome (RatingDate × Bool) :=
  let r := ReadDateTime raw
  if r.2.2 = false then Outcome.exited 1
  else Outcome.returned (DateTimeTime r.1, false)

/-- Source `func (rd *RatingDate) UnmarshalJSON(b []byte) error`: the target after
the call and the error returned (`none` is nil). -/
def UnmarshalJSON (rd : RatingDate) (b : List Char) : RatingDate × Option ParseError :=
  let s := Trim b [dquote]
  match Parse s with
  | Except.error err => (rd, some err)
  | Except.ok t => (t, none)

/-- Source `func (rd RatingDate) MarshalJSON() ([]byte, error)`; the error is always
nil. `zone` is the offset of `time.Local`. -/
def MarshalJSON (zone : Int → Int) (rd : RatingDate) : List Char :=
  jsonMarshalString (Format zone rd)

/-- The zero `time.Time`: 1 January of year 1, UTC. -/
def zeroTime : Time := { sec := -62135596800, nsec := 0, loc := Location.UTC }

/-- The round trip wire to storage to wire: the JSON text is decoded with
`UnmarshalJSON`, the date encoded with `MarshalBSONValue`, those bytes decoded
with `UnmarshalBSONValue` and the result encoded with `MarshalJSON`; `none`
when a decoding step fails. -/
def wireStorageWire (zone : Int → Int) (b : List Char) : Option (List Char) :=
  match UnmarshalJSON zeroTime b with
  | (_, some _) => none
  | (d, none) =>
    match UnmarshalBSONValue zeroTime (MarshalBSONValue d).2 with
    | Outcome.exited _ => none
    | Outcome.returned r => some (MarshalJSON zone r.1)

/-! ## The document store

The collection `Ratings` is a list of documents in stored form: a rating's
date is held as the bytes of its BSON value, written by `MarshalBSONValue`
and read back by `UnmarshalBSONValue` on every fetch. Every write call made
to the driver is recorded, in order. The failures the driver can report
(network, timeout, a decode error in another field) are inputs of the
model. -/

/-- HTTP status codes written by the handlers. -/
inductive Status where
  | Created
  | Accepted
  | BadRequest
  | NotFound
  | Conflict
  | InternalServerError
deriving DecidableEq, Repr

/-- A rating as the collection holds it: `Date` is the raw BSON value of the
field, the other fields are held as they are. -/
structure StoredRating where
  Date : List Nat
  Description : String
  Feeling : String
  Tags : List String
deriving DecidableEq, Repr

/-- A document of the collection; the store holds every document with an
`_id`. -/
structure Document where
  ID : Nat
  Username : String
  Ratings : List StoredRating
  Tags : List String
deriving DecidableEq, Repr

/-- A write call made to the driver, with the Go value handed to it. -/
inductive StoreOp where
  | InsertOne (doc : UserData)
  | ReplaceOne (id : Nat) (doc : UserData)
deriving DecidableEq, Repr

/-- The collection and the write calls made so far. -/
structure Mongo where
  docs : List Document
  writes : List StoreOp
deriving DecidableEq, Repr

/-- What the driver reports for the calls of one request: whether the
`FindOne(..).Decode(..)` returns an error and whether the write returns one. -/
structure Faults where
  findErr : Bool
  writeErr : Bool
deriving DecidableEq, Repr

/-- The stored form of a rating: the driver encodes `Date` with
`MarshalBSONValue`. -/
def encodeRating (rating : Rating) : StoredRating :=
  { Date := (MarshalBSONValue rating.Date).2, Description := rating.Description,
    Feeling := rating.Feeling, Tags := rating.Tags }

/-- The stored form of a record under the identity `id`. -/
def encodeUserData (id : Nat) (userData : UserData) : Document :=
  { ID := id, Username := userData.Username, Ratings := userData.Ratings.map encodeRating,
    Tags := userData.Tags }

/-- The decoding of a stored rating: the driver decodes `Date` with
`UnmarshalBSONValue` (whose error, when it returns, is always nil), which ends
the process on a value shorter than eight bytes. -/
def decodeStoredRating (s : StoredRating) : Outcome Rating :=
  match UnmarshalBSONValue zeroTime s.Date with
  | Outcome.exited code => Outcome.exited code
  | Outcome.returned r =>
    Outcome.returned
      { Date := r.1, Description := s.Description, Feeling := s.Feeling, Tags := s.Tags }

/-- The decoding of the stored ratings, in order. -/
def decodeRatings : List StoredRating → Outcome (List Rating)
  | [] => Outcome.returned []
  | s :: rest =>
    match decodeStoredRating s with
    | Outcome.exited code => Outcome.exited code
    | Outcome.returned rating =>
      match decodeRatings rest with
      | Outcome.exited code => Outcome.exited code
      | Outcome.returned ratings => Outcome.returned (rating :: ratings)

/-- The decoding of a document into `UserData`. -/
def decodeDocument (d : Document) : Outcome UserData :=
  match decodeRatings d.Ratings with
  | Outcome.exited code => Outcome.exited code
  | Outcome.returned ratings =>
    Outcome.returned { ID := some d.ID, Username := d.Username, Ratings := ratings, Tags := d.Tags }

/-- An identity not yet used in the collection, as the driver generates one
for a document inserted without `_id`. -/
def freshID (docs : List Document) : Nat :=
  (docs.map (fun d => d.ID)).foldr max 0 + 1

/-- The call `collection.InsertOne(ctx, userData)`: the collection after the
call and whether an error is returned. A record without `_id` gets a fresh
one. -/
def InsertOne (f : Faults) (m : Mongo) (userData : UserData) : Mongo × Bool :=
  if f.writeErr then ({ m with writes := m.writes ++ [StoreOp.InsertOne userData] }, true)
  else
    ({ docs := m.docs ++ [encodeUserData (userData.ID.getD (freshID m.docs)) userData],
       writes := m.writes ++ [StoreOp.InsertOne userData] }, false)

/-- The collection with the first document whose `_id` is `id` replaced. -/
def replaceFirst (id : Nat) (doc : Document) : List Document → List Document
  | [] => []
  | d :: ds => if d.ID = id then doc :: ds else d :: replaceFirst id doc ds

/-- The call `collection.ReplaceOne` with the filter `_id = id`: the collection
after the call and whether an error is returned. -/
def ReplaceOne (f : Faults) (m : Mongo) (id : Nat) (userData : UserData) : Mongo × Bool :=
  if f.writeErr then ({ m with writes := m.writes ++ [StoreOp.ReplaceOne id userData] }, true)
  else
    ({ docs := replaceFirst id (encodeUserData id userData) m.docs,
       writes := m.writes ++ [StoreOp.ReplaceOne id userData] }, false)

/-- Source `func getUserData(username string) *UserData`: `none` is nil, returned
on every error of `FindOne(..).Decode(..)` (no document for the user name
among them); the decoding of the document found runs `UnmarshalBSONValue` on
every stored date and may end the process there. -/
def getUserData (f : Faults) (m : Mongo) (username : String) : Outcome (Option UserData) :=
  if f.findErr then Outcome.returned none
  else
    match m.docs.find? (fun d => d.Username == username) with
    | none => Outcome.returned none
    | some d =>
      match decodeDocument d with
      | Outcome.exited code => Outcome.exited code
      | Outcome.returned userData => Outcome.returned (some userData)

/-- Source `func saveUserData(userData *UserData) bool`: on an error of the write,
`log.Fatal(err)` ends the process and `return false` is never reached. -/
def saveUserData (f : Faults) (m : Mongo) (userData : UserData) : Outcome Bool × Mongo :=
  let r :=
    match userData.ID with
    | none => InsertOne f m userData
    | some id => ReplaceOne f m id userData
  if r.2 then (Outcome.exited 1, r.1)
  else (Outcome.returned true, r.1)

/-! ## Handlers -/

/-- The body of a rating submission as `json.Decoder` sees it: `none` when it
is not a JSON object that fits `Rating`; otherwise the raw value of the
member `date` (handed to `UnmarshalJSON`; `none` when the member is absent)
and the decoded values of the other members. -/
structure RatingBody where
  date : Option (List Char)
  description : String
  feeling : String
  tags : List String
deriving DecidableEq, Repr

/-- The call `json.NewDecoder(r.Body).Decode(&rating)` on `var rating Rating`: the
rating after the call and whether an error is returned. -/
def decodeRating (body : Option RatingBody) : Rating × Bool :=
  match body with
  | none => ({ Date := zeroTime, Description := "", Feeling := "", Tags := [] }, true)
  | some b =>
    let d :=
      match b.date with
      | none => (zeroTime, none)
      | some raw => UnmarshalJSON zeroTime raw
    ({ Date := d.1, Description := b.description, Feeling := b.feeling, Tags := b.tags },
      d.2.isSome)

/-- Source `func NewHandler(w http.ResponseWriter, r *http.Request)`: the status
written (or the end of the process) and the store after the call. -/
def NewHandler (f : Faults) (m : Mongo) (username : String) : Outcome Status × Mongo :=
  match getUserData f m username with
  | Outcome.exited code => (Outcome.exited code, m)
  | Outcome.returned (some _) => (Outcome.returned Status.Conflict, m)
  | Outcome.returned none =>
    match saveUserData f m { ID := none, Username := username, Ratings := [], Tags := [] } with
    | (Outcome.returned true, m1) => (Outcome.returned Status.Created, m1)
    | (Outcome.returned false, m1) => (Outcome.returned Status.InternalServerError, m1)
    | (Outcome.exited code, m1) => (Outcome.exited code, m1)

/-- The mutation `RateHandler` applies to the fetched record: `updateTags`
with the rating's tags, then `append` of the rating to `Ratings`. -/
def rate (userData : UserData) (rating : Rating) : UserData :=
  let userData := updateTags userData rating.Tags
  { userData with Ratings := userData.Ratings ++ [rating] }

/-- Source `func RateHandler(w http.ResponseWriter, r *http.Request)`: the status
written (or the end of the process) and the store after the call. -/
def RateHandler (f : Faults) (m : Mongo) (username : String) (body : Option RatingBody) :
    Outcome Status × Mongo :=
  match getUserData f m username with
  | Outcome.exited code => (Outcome.exited code, m)
  | Outcome.returned none => (Outcome.returned Status.NotFound, m)
  | Outcome.returned (some userData) =>
    let dec := decodeRating body
    if dec.2 then (Outcome.returned Status.BadRequest, m)
    else if !validRating (some dec.1) then (Outcome.returned Status.BadRequest, m)
    else
      match saveUserData f m (rate userData dec.1) with
      | (Outcome.returned true, m1) => (Outcome.returned Status.Accepted, m1)
      | (Outcome.returned false, m1) => (Outcome.returned Status.InternalServerError, m1)
      | (Outcome.exited code, m1) => (Outcome.exited code, m1)

/-- The record `NewHandler` builds for a user name. -/
def newRecord (username : String) : UserData :=
  { ID := none, Username := username, Ratings := [], Tags := [] }

/-- The records reachable from a newly created one by accepted rating
submissions: each step is the mutation of `RateHandler` with a rating that
passes `validRating`. The identity the store assigns does not touch
`Ratings` or `Tags`. -/
inductive Reachable : UserData → Prop where
  | created (username : String) (id : Option Nat) :
      Reachable { newRecord username with ID := id }
  | rated (userData : UserData) (rating : Rating) :
      Reachable userData → validRating (some rating) = true →
      Reachable (rate userData rating)

/-! ## Specification of the wire form -/

/-- Specification: the number of days of a month of the Gregorian calendar. -/
def lastDayOfMonth (year month : Nat) : Nat :=
  if month = 2 then
    if year % 4 = 0 ∧ (year % 100 ≠ 0 ∨ year % 400 = 0) then 29 else 28
  else if month = 4 ∨ month = 6 ∨ month = 9 ∨ month = 11 then 30
  else if 1 ≤ month ∧ month ≤ 12 then 31
  else 0

/-- Specification of the wire form `YYYY-MM-DD`, in the words of the spec:
exactly four digits, `-`, two digits, `-`, two digits, naming an existing
month and a day that exists in that month; the result is the year, month and
day named, `none` for every other text. -/
def wireDate? (s : List Char) : Option (Nat × Nat × Nat) :=
  match s with
  | [y1, y2, y3, y4, s1, m1, m2, s2, d1, d2] =>
    let year := digitVal y1 * 1000 + digitVal y2 * 100 + digitVal y3 * 10 + digitVal y4
    let month := digitVal m1 * 10 + digitVal m2
    let day := digitVal d1 * 10 + digitVal d2
    if isDigitChar y1 = true ∧ isDigitChar y2 = true ∧ isDigitChar y3 = true ∧
        isDigitChar y4 = true ∧ s1 = '-' ∧ isDigitChar m1 = true ∧ isDigitChar m2 = true ∧
        s2 = '-' ∧ isDigitChar d1 = true ∧ isDigitChar d2 = true ∧
        1 ≤ month ∧ month ≤ 12 ∧ 1 ≤ day ∧ day ≤ lastDayOfMonth year month then
      some (year, month, day)
    else none
  | _ => none

/-- Specification: the wire text of a calendar day, `YYYY-MM-DD`. -/
def dateText (year month day : Nat) : List Char :=
  [digitChar (year / 1000), digitChar (year / 100 % 10), digitChar (year / 10 % 10),
    digitChar (year % 10), '-', digitChar (month / 10), digitChar (month % 10), '-',
    digitChar (day / 10), digitChar (day % 10)]

/-! ## Theorems: tag set -/

theorem existingTag_iff (tags : List String) (newTag : String) :
    existingTag tags newTag = true ↔ newTag ∈ tags := by
  induction tags with
  | nil => simp [existingTag]
  | cons t ts ih =>
    by_cases h : t = newTag
    · simp [existingTag, h]
    · have h2 : ¬ newTag = t := fun e => h e.symm
      simp [existingTag, h, h2, ih]

theorem updateTags_fields (ud : UserData) (N : List String) :
    (updateTags ud N).ID = ud.ID ∧ (updateTags ud N).Username = ud.Username ∧
      (updateTags ud N).Ratings = ud.Ratings := by
  induction N generalizing ud with
  | nil => simp [updateTags]
  | cons x xs ih =>
    unfold updateTags
    split
    · simpa using ih { ud with Tags := ud.Tags ++ [x] }
    · exact ih ud

theorem firstOccurrences_filter (p : String → Bool) (l : List String) :
    firstOccurrences (l.filter p) = (firstOccurrences l).filter p := by
  induction l with
  | nil => simp [firstOccurrences]
  | cons x xs ih =>
    by_cases hp : p x = true
    · simp [List.filter_cons, hp, firstOccurrences, ih, List.filter_filter, Bool.and_comm]
    · simp only [List.filter_cons, hp, firstOccurrences]
      simp only [Bool.false_eq_true, if_false, ih, List.filter_filter]
      apply List.filter_congr
      intro y _
      by_cases hy : y = x
      · subst hy; simp [hp]
      · simp [hy]

theorem updateTags_tags (ud : UserData) (N : List String) :
    (updateTags ud N).Tags = mergeSpec ud.Tags N := by
  induction N generalizing ud with
  | nil => simp [updateTags, mergeSpec, firstOccurrences]
  | cons x xs ih =>
    unfold updateTags
    by_cases hx : x ∈ ud.Tags
    · have he : existingTag ud.Tags x = true := (existingTag_iff _ _).2 hx
      simp only [he, Bool.not_true, Bool.false_eq_true, if_false]
      rw [ih]
      simp [mergeSpec, List.filter_cons, hx]
    · have he : existingTag ud.Tags x = false := by
        rw [← Bool.not_eq_true, existingTag_iff]; exact hx
      simp only [he, Bool.not_false, if_true]
      rw [ih]
      simp only [mergeSpec, List.filter_cons, hx, not_false_eq_true, decide_True, if_true,
        firstOccurrences, List.append_assoc, List.singleton_append]
      congr 2
      rw [← firstOccurrences_filter]
      congr 1
      rw [List.filter_filter]
      apply List.filter_congr
      intro y _
      by_cases hy : y = x
      · subst hy; simp
      · simp [hy]


theorem firstOccurrences_nodup (l : List String) : (firstOccurrences l).Nodup := by
  induction l with
  | nil => simp [firstOccurrences]
  | cons x xs ih =>
    simp only [firstOccurrences, List.nodup_cons, List.mem_filter, decide_eq_true_eq,
      ne_eq, not_true_eq_false, and_false, not_false_eq_true, true_and]
    exact ih.filter _

theorem mem_firstOccurrences (l : List String) (y : String) :
    y ∈ firstOccurrences l ↔ y ∈ l := by
  induction l with
  | nil => simp [firstOccurrences]
  | cons x xs ih =>
    simp only [firstOccurrences, List.mem_cons, List.mem_filter, decide_eq_true_eq, ih]
    by_cases hy : y = x
    · simp [hy]
    · simp [hy]

theorem mem_mergeSpec (T N : List String) (y : String) :
    y ∈ mergeSpec T N ↔ y ∈ T ∨ y ∈ N := by
  simp only [mergeSpec, List.mem_append, mem_firstOccurrences, List.mem_filter,
    decide_eq_true_eq]
  by_cases h : y ∈ T
  · simp [h]
  · simp [h]

theorem mergeSpec_nodup (T N : List String) (h : T.Nodup) : (mergeSpec T N).Nodup := by
  unfold mergeSpec
  rw [List.nodup_append]
  refine ⟨h, firstOccurrences_nodup _, ?_⟩
  intro a ha hb
  rw [mem_firstOccurrences, List.mem_filter] at hb
  simpa [ha] using hb.2

theorem mergeSpec_of_subset (T N : List String) (h : ∀ x ∈ N, x ∈ T) : mergeSpec T N = T := by
  unfold mergeSpec
  have : N.filter (fun x => decide (x ∉ T)) = [] := by
    rw [List.filter_eq_nil_iff]
    intro a ha
    simpa using h a ha
  rw [this]
  simp [firstOccurrences]

theorem updateTags_eq (ud : UserData) (N : List String) :
    updateTags ud N = { ud with Tags := mergeSpec ud.Tags N } := by
  have h1 := updateTags_fields ud N
  have h2 := updateTags_tags ud N
  cases hu : updateTags ud N with
  | mk i u r t =>
    rw [hu] at h1 h2
    simp only at h1 h2
    obtain ⟨ha, hb, hc⟩ := h1
    subst ha hb hc h2
    rfl

theorem validFeelingIn_iff (l : List String) (feeling : String) :
    validFeelingIn l feeling = true ↔ feeling ∈ l := by
  induction l with
  | nil => simp [validFeelingIn]
  | cons t ts ih =>
    by_cases h : t = feeling
    · simp [validFeelingIn, h]
    · have h2 : ¬ feeling = t := fun e => h e.symm
      simp [validFeelingIn, h, h2, ih]

theorem reachable_inv (ud : UserData) (h : Reachable ud) :
    ud.Tags.Nodup ∧ ∀ g ∈ ud.Ratings, ∀ t ∈ g.Tags, t ∈ ud.Tags := by
  induction h with
  | created u id => simp [newRecord]
  | rated ud g _ _ ih =>
    have he := updateTags_eq ud g.Tags
    simp only [rate, he]
    refine ⟨mergeSpec_nodup _ _ ih.1, ?_⟩
    intro g1 hg1 t ht
    rw [mem_mergeSpec]
    rw [List.mem_append] at hg1
    rcases hg1 with hg1 | hg1
    · exact Or.inl (ih.2 g1 hg1 t ht)
    · simp only [List.mem_singleton] at hg1
      subst hg1
      exact Or.inr ht

/-! ## Claims: tag set and validator -/

/-- Claim C1: for every existing tag list and every submitted tag list,
`updateTags` leaves `Tags` equal to the existing tags followed by exactly the
submitted values that do not occur among them, each once, in the order of
their first occurrence (`firstOccurrences` keeps the values of a list, each
once, and is duplicate free); the other fields of the record are untouched.
The example `merge(["a","b"], ["b","c","a","d"]) = ["a","b","c","d"]` is the
last conjunct. -/
theorem updateTags_merge_order :
    (∀ (userData : UserData) (N : List String),
      updateTags userData N = { userData with Tags := mergeSpec userData.Tags N } ∧
      mergeSpec userData.Tags N = userData.Tags ++
        firstOccurrences (N.filter (fun x => decide (x ∉ userData.Tags)))) ∧
    (∀ (l : List String), (firstOccurrences l).Nodup ∧ ∀ x, x ∈ firstOccurrences l ↔ x ∈ l) ∧
    (updateTags { ID := none, Username := "u", Ratings := [], Tags := ["a", "b"] }
      ["b", "c", "a", "d"]).Tags = ["a", "b", "c", "d"] := by
  refine ⟨?_, ?_, by decide⟩
  · intro ud N
    exact ⟨updateTags_eq ud N, rfl⟩
  · intro l
    exact ⟨firstOccurrences_nodup l, mem_firstOccurrences l⟩

/-- Claim C2: every record reachable from a newly created one by accepted
rating submissions has no duplicate in `Tags`, and every tag of every rating
in `Ratings` occurs in `Tags`, exactly once. -/
theorem reachable_tags_invariant (userData : UserData) (h : Reachable userData) :
    userData.Tags.Nodup ∧
    (∀ rating ∈ userData.Ratings, ∀ t ∈ rating.Tags, t ∈ userData.Tags) ∧
    (∀ rating ∈ userData.Ratings, ∀ t ∈ rating.Tags, userData.Tags.count t = 1) := by
  have hi := reachable_inv userData h
  refine ⟨hi.1, hi.2, ?_⟩
  intro g hg t ht
  exact List.count_eq_one_of_mem hi.1 (hi.2 g hg t ht)

/-- Witness for C2: two accepted submissions, the second repeating a tag of
the first and repeating a tag within itself. -/
theorem reachable_tags_invariant_witness :
    Reachable (rate (rate (newRecord "alice")
        { Date := zeroTime, Description := "", Feeling := "Good", Tags := ["work"] })
        { Date := zeroTime, Description := "", Feeling := "Sad",
          Tags := ["work", "home", "home"] }) ∧
    (rate (rate (newRecord "alice")
        { Date := zeroTime, Description := "", Feeling := "Good", Tags := ["work"] })
        { Date := zeroTime, Description := "", Feeling := "Sad",
          Tags := ["work", "home", "home"] }).Tags.count "home" = 1 :=
  have hr : Reachable (rate (rate (newRecord "alice")
        { Date := zeroTime, Description := "", Feeling := "Good", Tags := ["work"] })
        { Date := zeroTime, Description := "", Feeling := "Sad",
          Tags := ["work", "home", "home"] }) :=
    Reachable.rated _ _ (Reachable.rated _ _ (Reachable.created "alice" none) (by decide))
      (by decide)
  ⟨hr, (reachable_tags_invariant _ hr).2.2
    { Date := zeroTime, Description := "", Feeling := "Sad", Tags := ["work", "home", "home"] }
    (by decide) "home" (by decide)⟩

/-- Claim C3: `validRating` returns true exactly when the rating is present,
its `Feeling` is non-empty and its `Feeling` is one of "Angry", "Bored",
"Great", "Good", "Normal", "Sad" (case-sensitive); the result depends on
`Feeling` alone. "Great" is valid, "great" and "" are not. -/
theorem validRating_iff :
    (∀ (rating : Option Rating),
      validRating rating = true ↔
        ∃ r, rating = some r ∧ r.Feeling ≠ "" ∧
          r.Feeling ∈ ["Angry", "Bored", "Great", "Good", "Normal", "Sad"]) ∧
    (∀ (r1 r2 : Rating), r1.Feeling = r2.Feeling →
      validRating (some r1) = validRating (some r2)) ∧
    (∀ (d : RatingDate) (desc : String) (tags : List String),
      validRating (some { Date := d, Description := desc, Feeling := "Great", Tags := tags })
        = true ∧
      validRating (some { Date := d, Description := desc, Feeling := "great", Tags := tags })
        = false ∧
      validRating (some { Date := d, Description := desc, Feeling := "", Tags := tags })
        = false) := by
  refine ⟨?_, ?_, ?_⟩
  · intro rating
    cases rating with
    | none => simp [validRating]
    | some r =>
      simp only [validRating, validFeeling, validFeelingsList, Bool.and_eq_true,
        decide_eq_true_eq, validFeelingIn_iff, Option.some.injEq, exists_eq_left']
      constructor
      · rintro ⟨_, hm⟩
        refine ⟨?_, hm⟩
        intro he
        rw [he] at hm
        revert hm
        decide
      · rintro ⟨_, hm⟩
        refine ⟨?_, hm⟩
        simp only [List.mem_cons, List.mem_singleton, List.not_mem_nil, or_false] at hm
        rcases hm with h | h | h | h | h | h <;> rw [h] <;> decide
  · intro r1 r2 h
    simp [validRating, h]
  · intro d desc tags
    refine ⟨?_, ?_, ?_⟩ <;> simp [validRating, validFeeling, validFeelingsList, validFeelingIn]
    decide

/-- Claim C7: the tag merge is idempotent in its second argument: running
`updateTags` with the same list a second time changes nothing, for all tag
lists, duplicates included. -/
theorem updateTags_idempotent (userData : UserData) (N : List String) :
    updateTags (updateTags userData N) N = updateTags userData N := by
  rw [updateTags_eq (updateTags userData N) N, updateTags_eq userData N]
  simp only
  rw [mergeSpec_of_subset]
  intro x hx
  rw [mem_mergeSpec]
  exact Or.inr hx


/-! ## Theorems: calendar arithmetic -/

theorem absYearDay_cycles (a b c e k : Nat) (hb : b < 4) (hc : c < 25) (he : e < 4)
    (hk : k < 365 ∨ (k = 365 ∧ e = 3 ∧ (c ≠ 24 ∨ b = 3))) (r : Nat) (hr : r < 86400) :
    absYearDay ((146097 * a + 36524 * b + 1461 * c + 365 * e + k) * 86400 + r)
      = (400 * a + 100 * b + 4 * c + e, k) := by
  simp only [absYearDay, secondsPerDay, daysPer400Years, daysPer100Years, daysPer4Years]
  have hq0 : ((146097 * a + 36524 * b + 1461 * c + 365 * e + k) * 86400 + r) / 86400
      = 146097 * a + 36524 * b + 1461 * c + 365 * e + k :=
    Nat.div_eq_of_lt_le (by omega) (by omega)
  rw [hq0]
  norm_num only
  have hR3 : 365 * e + k < 1461 := by omega
  have hR2 : 1461 * c + 365 * e + k < 36525 := by omega
  have hR1 : 36524 * b + 1461 * c + 365 * e + k < 146097 := by omega
  have h1 : (146097 * a + 36524 * b + 1461 * c + 365 * e + k) / 146097 = a :=
    Nat.div_eq_of_lt_le (by omega) (by omega)
  have h2 : 146097 * a + 36524 * b + 1461 * c + 365 * e + k - 146097 * a
      = 36524 * b + 1461 * c + 365 * e + k := by omega
  rw [h1, h2]
  have hq : (36524 * b + 1461 * c + 365 * e + k) / 36524 = b ∨
      ((36524 * b + 1461 * c + 365 * e + k) / 36524 = 4 ∧ b = 3) := by
    by_cases hs : 1461 * c + 365 * e + k < 36524
    · exact Or.inl (Nat.div_eq_of_lt_le (by omega) (by omega))
    · exact Or.inr ⟨Nat.div_eq_of_lt_le (by omega) (by omega), by omega⟩
  have h3 : (36524 * b + 1461 * c + 365 * e + k) / 36524
      - (36524 * b + 1461 * c + 365 * e + k) / 36524 / 4 = b := by
    rcases hq with hq | ⟨hq, hb3⟩
    · rw [hq]; omega
    · rw [hq, hb3]
  have h4 : 36524 * b + 1461 * c + 365 * e + k - 36524 * b = 1461 * c + 365 * e + k := by omega
  rw [h3, h4]
  have h5 : (1461 * c + 365 * e + k) / 1461 = c :=
    Nat.div_eq_of_lt_le (by omega) (by omega)
  have h6 : 1461 * c + 365 * e + k - 1461 * c = 365 * e + k := by omega
  rw [h5, h6]
  have hq2 : (365 * e + k) / 365 = e ∨ ((365 * e + k) / 365 = 4 ∧ e = 3) := by
    by_cases hs : k < 365
    · exact Or.inl (Nat.div_eq_of_lt_le (by omega) (by omega))
    · exact Or.inr ⟨Nat.div_eq_of_lt_le (by omega) (by omega), by omega⟩
  have h7 : (365 * e + k) / 365 - (365 * e + k) / 365 / 4 = e := by
    rcases hq2 with hq2 | ⟨hq2, he3⟩
    · rw [hq2]; omega
    · rw [hq2, he3]
  have h8 : 365 * e + k - 365 * e = k := by omega
  rw [h7, h8]



theorem monthDay_yday (leap : Bool) (month day : Nat) (hm1 : 1 ≤ month) (hm2 : month ≤ 12)
    (hd1 : 1 ≤ day)
    (hd2 : day ≤ (if month = 2 ∧ leap = true then 29
      else daysBefore.getD month 0 - daysBefore.getD (month - 1) 0)) :
    monthDay leap (daysBefore.getD (month - 1) 0 + (if leap = true ∧ month ≥ 3 then 1 else 0)
      + (day - 1)) = (month, day) := by
  interval_cases month <;> cases leap <;> simp [daysBefore] at hd2 <;>
    interval_cases day <;> decide

theorem yday_lt (leap : Bool) (month day : Nat) (hm1 : 1 ≤ month) (hm2 : month ≤ 12)
    (hd1 : 1 ≤ day)
    (hd2 : day ≤ (if month = 2 ∧ leap = true then 29
      else daysBefore.getD month 0 - daysBefore.getD (month - 1) 0)) :
    daysBefore.getD (month - 1) 0 + (if leap = true ∧ month ≥ 3 then 1 else 0) + (day - 1)
      < (if leap = true then 366 else 365) := by
  interval_cases month <;> cases leap <;> simp [daysBefore] at hd2 ⊢ <;> omega

theorem wrapInt64_eq (x : Int) (h1 : -9223372036854775808 ≤ x) (h2 : x < 9223372036854775808) :
    wrapInt64 x = x := by
  unfold wrapInt64 toInt64 toUint64
  norm_num only
  omega

theorem wrapInt64_toInt64_sub (n : Nat) (u : Int) (h : n < 18446744073709551616)
    (h1 : -9223372036854775808 ≤ (n : Int) - u) (h2 : (n : Int) - u < 9223372036854775808) :
    wrapInt64 (toInt64 n - u) = (n : Int) - u := by
  unfold wrapInt64 toInt64 toUint64
  norm_num only
  split_ifs <;> omega

theorem toUint64_eq (x : Int) (h1 : 0 ≤ x) (h2 : x < 18446744073709551616) :
    toUint64 x = x.toNat := by
  unfold toUint64
  norm_num only
  omega

theorem year_cycles (year : Int) (h0 : 0 ≤ year) (h1 : year ≤ 9999) :
    ∃ a b c e : Nat, b < 4 ∧ c < 25 ∧ e < 4 ∧ a ≤ 730692580 ∧
      year - absoluteZeroYear = ((400 * a + 100 * b + 4 * c + e : Nat) : Int) ∧
      daysSinceEpoch year = 146097 * a + 36524 * b + 1461 * c + 365 * e ∧
      (isLeap year = true ↔ e = 3 ∧ (c ≠ 24 ∨ b = 3)) := by
  obtain ⟨Y, hY⟩ : ∃ Y : Nat, year - absoluteZeroYear = (Y : Int) :=
    ⟨(year - absoluteZeroYear).toNat, by unfold absoluteZeroYear; omega⟩
  have hYb : Y ≤ 292277022399 + 9999 := by unfold absoluteZeroYear at hY; omega
  have hu : toUint64 (year - absoluteZeroYear) = Y := by
    rw [hY, toUint64_eq _ (by omega) (by omega)]; simp
  refine ⟨Y / 400, Y % 400 / 100, Y % 100 / 4, Y % 4, by omega, by omega, by omega, by omega,
    ?_, ?_, ?_⟩
  · rw [hY]; congr 1; omega
  · simp only [daysSinceEpoch, hu, daysPer400Years, daysPer100Years, daysPer4Years]
    norm_num only
    have e1 : Y - 400 * (Y / 400) = Y % 400 := by omega
    rw [e1]
    have e2 : Y % 400 - 100 * (Y % 400 / 100) = Y % 100 := by omega
    rw [e2]
    have e3 : Y % 100 - 4 * (Y % 100 / 4) = Y % 4 := by omega
    rw [e3]
  · have hy : year = (Y : Int) - 292277022399 := by unfold absoluteZeroYear at hY; omega
    simp only [isLeap, Bool.and_eq_true, Bool.or_eq_true, beq_iff_eq, bne_iff_ne, ne_eq]
    rw [hy]
    omega

theorem Date_days (year : Int) (month day : Nat)
    (h0 : 0 ≤ year) (h1 : year ≤ 9999) (hm1 : 1 ≤ month) (hm2 : month ≤ 12)
    (hd1 : 1 ≤ day) (hd2 : day ≤ daysIn month year) :
    ∃ D : Nat, (Date year month day).sec = ((D * 86400 : Nat) : Int) - unixToAbsolute ∧
      D * 86400 + 86400 < 18446744073709551616 ∧
      -9223372036854775 ≤ ((D * 86400 : Nat) : Int) - unixToAbsolute ∧
      ((D * 86400 : Nat) : Int) - unixToAbsolute < 9223372036854775 ∧
      ∀ r < 86400, absDate (D * 86400 + r) = (year, month, day) := by
  obtain ⟨a, b, c, e, hb, hc, he, ha, hY, hdse, hleap⟩ := year_cycles year h0 h1
  have ha2 : 730692555 ≤ a := by unfold absoluteZeroYear at hY; omega
  have hyear : toInt64 (400 * a + 100 * b + 4 * c + e) + absoluteZeroYear = year := by
    have hsmall : 400 * a + 100 * b + 4 * c + e < 9223372036854775808 := by omega
    have hsmall2 : 400 * a + 100 * b + 4 * c + e < 18446744073709551616 := by omega
    unfold toInt64
    norm_num only
    rw [Nat.mod_eq_of_lt hsmall2, if_pos hsmall]
    omega
  have hd2' : day ≤ (if month = 2 ∧ isLeap year = true then 29
      else daysBefore.getD month 0 - daysBefore.getD (month - 1) 0) := hd2
  have hmd := monthDay_yday (isLeap year) month day hm1 hm2 hd1 hd2'
  have hyd := yday_lt (isLeap year) month day hm1 hm2 hd1 hd2'
  generalize hk : daysBefore.getD (month - 1) 0
    + (if isLeap year = true ∧ month ≥ 3 then 1 else 0) + (day - 1) = k at hmd hyd
  have hk366 : k < 366 := by
    split_ifs at hyd <;> omega
  have hkk : k < 365 ∨ (k = 365 ∧ e = 3 ∧ (c ≠ 24 ∨ b = 3)) := by
    by_cases hl : isLeap year = true
    · rw [if_pos hl] at hyd
      have := hleap.1 hl
      omega
    · rw [if_neg hl] at hyd
      omega
  have hd : (if isLeap year = true ∧ month ≥ 3 then
      daysSinceEpoch year + daysBefore.getD (month - 1) 0 + 1
      else daysSinceEpoch year + daysBefore.getD (month - 1) 0) + (day - 1)
      = 146097 * a + 36524 * b + 1461 * c + 365 * e + k := by
    rw [hdse, ← hk]
    split_ifs <;> omega
  clear hd2 hd2' hyd hleap hdse hY hk
  have hlo : 146097 * 730692555 ≤ 146097 * a + 36524 * b + 1461 * c + 365 * e + k := by omega
  have hhi : 146097 * a + 36524 * b + 1461 * c + 365 * e + k ≤ 146097 * 730692581 := by omega
  have hU : unixToAbsolute = 9223372028715321600 := by decide
  refine ⟨146097 * a + 36524 * b + 1461 * c + 365 * e + k, ?_, ?_, ?_, ?_, ?_⟩
  · simp only [Date, hd, secondsPerDay]
    apply wrapInt64_toInt64_sub
    · omega
    · rw [hU]; push_cast; omega
    · rw [hU]; push_cast; omega
  · omega
  · rw [hU]; push_cast; omega
  · rw [hU]; push_cast; omega
  · intro r hr
    simp only [absDate, absYearDay_cycles a b c e k hb hc he hkk r hr]
    rw [hyear, hmd]

theorem Date_Date (zone : Int → Int) (year : Int) (month day : Nat)
    (h0 : 0 ≤ year) (h1 : year ≤ 9999) (hm1 : 1 ≤ month) (hm2 : month ≤ 12)
    (hd1 : 1 ≤ day) (hd2 : day ≤ daysIn month year) :
    (Date year month day).Date zone = (year, month, day) := by
  obtain ⟨D, hsec, hD, _, _, habs⟩ :=
    Date_days year month day h0 h1 hm1 hm2 hd1 hd2
  have hl : (Date year month day).loc = Location.UTC := rfl
  simp only [Time.Date, Time.abs, hl, hsec]
  rw [sub_add_cancel, toUint64_eq _ (by omega) (by omega), Int.toNat_ofNat]
  have h := habs 0 (by omega)
  rw [Nat.add_zero] at h
  exact h

/-! ## Theorems: the wire form -/

theorem digitChar_facts : ∀ d < 10, isDigitChar (digitChar d) = true ∧
    digitVal (digitChar d) = d ∧ digitChar d ≠ dquote ∧
    jsonEscape (digitChar d) = [digitChar d] := by
  decide

theorem isDigitChar_ne_sign (c : Char) (h : isDigitChar c = true) : c ≠ '-' ∧ c ≠ '+' := by
  constructor <;> (intro he; subst he; revert h; decide)

theorem daysIn_eq_lastDayOfMonth (year month : Nat) (h1 : 1 ≤ month) (h2 : month ≤ 12) :
    daysIn month (year : Int) = lastDayOfMonth year month := by
  have hl : (isLeap (year : Int) = true) ↔ (year % 4 = 0 ∧ (year % 100 ≠ 0 ∨ year % 400 = 0)) := by
    simp only [isLeap, Bool.and_eq_true, Bool.or_eq_true, beq_iff_eq, bne_iff_ne, ne_eq]
    omega
  unfold daysIn lastDayOfMonth
  interval_cases month <;> simp [daysBefore, hl]

theorem getnum_fixed (s rest : List Char) (n : Nat) (h : getnum s true = some (n, rest)) :
    ∃ a b, s = a :: b :: rest ∧ isDigitChar a = true ∧ isDigitChar b = true ∧
      n = digitVal a * 10 + digitVal b := by
  rcases s with _ | ⟨a, _ | ⟨b, r⟩⟩
  · simp [getnum, isDigit] at h
  · simp [getnum, isDigit] at h
  · simp only [getnum, isDigit, List.get?_cons_zero, List.get?_cons_succ] at h
    by_cases ha : isDigitChar a = true
    · by_cases hb : isDigitChar b = true
      · simp [ha, hb] at h
        exact ⟨a, b, by rw [h.2], ha, hb, h.1.symm⟩
      · simp [ha, hb] at h
    · simp [ha] at h

theorem skip_dash (s rest : List Char) (h : skip s ['-'] = some rest) : s = '-' :: rest := by
  rcases s with _ | ⟨a, r⟩
  · simp [skip] at h
  · simp only [skip] at h
    by_cases ha : a = '-'
    · simp [ha] at h
      rw [ha, h]
    · simp [ha] at h

theorem atoi_four (a b c d : Char) (year : Int) (ha : isDigitChar a = true)
    (h : atoi [a, b, c, d] = some year) :
    isDigitChar b = true ∧ isDigitChar c = true ∧ isDigitChar d = true ∧
      year = ((digitVal a * 1000 + digitVal b * 100 + digitVal c * 10 + digitVal d : Nat) : Int) := by
  have hs := isDigitChar_ne_sign a ha
  simp only [atoi, List.head?_cons, Option.some.injEq, hs.1, hs.2, or_self, if_false,
    decide_False, leadingInt, ha, if_true] at h
  by_cases hb : isDigitChar b = true
  · by_cases hc : isDigitChar c = true
    · by_cases hd : isDigitChar d = true
      · simp [hb, hc, hd] at h
        refine ⟨hb, hc, hd, ?_⟩
        rw [← h]
        push_cast
        ring
      · simp [hb, hc, hd] at h
    · simp [hb, hc] at h
  · simp [hb] at h


theorem Parse_sound (s : List Char) (t : Time) (h : Parse s = Except.ok t) :
    ∃ y m d, wireDate? s = some (y, m, d) ∧ t = Date (y : Int) m d := by
  unfold Parse at h
  by_cases h1 : s.length < 4 ∨ isDigit s 0 = false
  · simp [h1] at h
  rw [if_neg h1] at h
  cases hA : atoi (List.take 4 s) with
  | none => simp [hA] at h
  | some year =>
    simp only [hA] at h
    cases hS1 : skip (List.drop 4 s) ['-'] with
    | none => simp [hS1] at h
    | some v1 =>
      simp only [hS1] at h
      cases hM : getnum v1 true with
      | none => simp [hM] at h
      | some p =>
        obtain ⟨month, v2⟩ := p
        simp only [hM] at h
        by_cases hmr : month ≤ 0 ∨ 12 < month
        · rw [if_pos hmr] at h
          cases h
        rw [if_neg hmr] at h
        cases hS2 : skip v2 ['-'] with
        | none => simp [hS2] at h
        | some v3 =>
          simp only [hS2] at h
          cases hD : getnum v3 true with
          | none => simp [hD] at h
          | some q =>
            obtain ⟨day, v4⟩ := q
            simp only [hD] at h
            by_cases hex : v4.length ≠ 0
            · rw [if_pos hex] at h
              cases h
            rw [if_neg hex] at h
            by_cases hdr : day < 1 ∨ day > daysIn month year
            · rw [if_pos hdr] at h
              cases h
            rw [if_neg hdr] at h
            have ht : t = Date year month day := by
              injection h with h; exact h.symm
            have hv4 : v4 = [] := by
              simpa using hex
            obtain ⟨g, hh, hv3, hg, hhh, hday⟩ := getnum_fixed _ _ _ hD
            have hv2 := skip_dash _ _ hS2
            obtain ⟨e, f, hv1, he, hf, hmonth⟩ := getnum_fixed _ _ _ hM
            have hdrop := skip_dash _ _ hS1
            rcases s with _ | ⟨a, _ | ⟨b, _ | ⟨c, _ | ⟨d, rest⟩⟩⟩⟩
            · simp at h1
            · simp at h1
            · simp at h1
            · simp at h1
            · have ha : isDigitChar a = true := by
                simpa [isDigit] using h1
              simp only [List.take_succ_cons, List.take_zero, List.drop_succ_cons,
                List.drop_zero] at hA hdrop
              obtain ⟨hb, hc, hd, hyear⟩ := atoi_four a b c d year ha hA
              refine ⟨digitVal a * 1000 + digitVal b * 100 + digitVal c * 10 + digitVal d,
                month, day, ?_, ?_⟩
              · subst hdrop hv1 hv2 hv3 hv4
                have hl := daysIn_eq_lastDayOfMonth
                  (digitVal a * 1000 + digitVal b * 100 + digitVal c * 10 + digitVal d) month
                  (by omega) (by omega)
                rw [← hyear] at hl
                simp only [wireDate?]
                rw [if_pos]
                · rw [hmonth, hday]
                · refine ⟨ha, hb, hc, hd, ?_, he, hf, ?_, hg, hhh, ?_, ?_, ?_, ?_⟩
                  · trivial
                  · trivial
                  · omega
                  · omega
                  · omega
                  · rw [← hmonth, ← hday, ← hl]; omega
              · rw [ht, hyear]

theorem Parse_complete (s : List Char) (y m d : Nat) (h : wireDate? s = some (y, m, d)) :
    Parse s = Except.ok (Date (y : Int) m d) := by
  unfold wireDate? at h
  split at h
  · rename_i y1 y2 y3 y4 s1 m1 m2 s2 d1 d2
    simp only at h
    split_ifs at h with hc
    obtain ⟨h1, h2, h3, h4, hs1, h5, h6, hs2, h7, h8, hm1, hm2, hd1, hd2⟩ := hc
    simp only [Option.some.injEq, Prod.mk.injEq] at h
    obtain ⟨hy, hm, hd⟩ := h
    subst hs1 hs2
    have hs := isDigitChar_ne_sign y1 h1
    have hl := daysIn_eq_lastDayOfMonth
      (digitVal y1 * 1000 + digitVal y2 * 100 + digitVal y3 * 10 + digitVal y4)
      (digitVal m1 * 10 + digitVal m2) hm1 hm2
    have hyear : (((((0 * 10 + digitVal y1) * 10 + digitVal y2) * 10 + digitVal y3) * 10
        + digitVal y4 : Nat) : Int)
        = ((digitVal y1 * 1000 + digitVal y2 * 100 + digitVal y3 * 10 + digitVal y4 : Nat)
          : Int) := by
      congr 1; ring
    simp only [Parse, isDigit, atoi, leadingInt, getnum, skip, List.length_cons,
      List.length_nil, List.get?_cons_zero, List.get?_cons_succ, List.take_succ_cons,
      List.take_zero, List.drop_succ_cons, List.drop_zero, List.head?_cons, List.getD_cons_zero,
      List.getD_cons_succ, h1, h2, h3, h4, h5, h6, h7, h8, hs.1, hs.2, Option.some.injEq,
      or_self, if_false, if_true, decide_False, Bool.not_true, Bool.false_eq_true, ne_eq,
      not_true_eq_false, not_false_eq_true, hyear, hl]
    norm_num
    rw [if_neg (by omega), if_neg (by omega)]
    subst hy hm hd
    push_cast
    rfl
  · simp at h


/-! ## Theorems: the date codec -/

theorem appendInt_four (b : List Char) (y : Nat) (h : y < 10000) :
    appendInt b (y : Int) 4 = b ++ [digitChar (y / 1000), digitChar (y / 100 % 10),
      digitChar (y / 10 % 10), digitChar (y % 10)] := by
  have h0 : ¬ ((y : Int) < 0) := by omega
  simp [appendInt, h0, h]

theorem appendInt_two (b : List Char) (n : Nat) (h : n < 100) :
    appendInt b (n : Int) 2 = b ++ [digitChar (n / 10), digitChar (n % 10)] := by
  have h0 : ¬ ((n : Int) < 0) := by omega
  simp [appendInt, h0, h]

theorem lastDayOfMonth_le (year month : Nat) : lastDayOfMonth year month ≤ 31 := by
  unfold lastDayOfMonth
  split_ifs <;> omega

theorem Format_of_Date (zone : Int → Int) (t : Time) (y m d : Nat) (hy : y ≤ 9999)
    (hm : m ≤ 12) (hd : d ≤ 31) (h : t.Date zone = ((y : Int), m, d)) :
    Format zone t = dateText y m d := by
  simp only [Format, h, List.nil_append]
  rw [appendInt_four _ y (by omega)]
  rw [appendInt_two _ m (by omega), appendInt_two _ d (by omega)]
  simp [dateText]

theorem wireDate_dateText (y m d : Nat) (hy : y ≤ 9999) (hm1 : 1 ≤ m) (hm2 : m ≤ 12)
    (hd1 : 1 ≤ d) (hd2 : d ≤ lastDayOfMonth y m) :
    wireDate? (dateText y m d) = some (y, m, d) := by
  have hd3 := lastDayOfMonth_le y m
  have f1 := digitChar_facts (y / 1000) (by omega)
  have f2 := digitChar_facts (y / 100 % 10) (by omega)
  have f3 := digitChar_facts (y / 10 % 10) (by omega)
  have f4 := digitChar_facts (y % 10) (by omega)
  have f5 := digitChar_facts (m / 10) (by omega)
  have f6 := digitChar_facts (m % 10) (by omega)
  have f7 := digitChar_facts (d / 10) (by omega)
  have f8 := digitChar_facts (d % 10) (by omega)
  have ey : y / 1000 * 1000 + y / 100 % 10 * 100 + y / 10 % 10 * 10 + y % 10 = y := by omega
  have em : m / 10 * 10 + m % 10 = m := by omega
  have ed : d / 10 * 10 + d % 10 = d := by omega
  simp only [wireDate?, dateText, f1.1, f2.1, f3.1, f4.1, f5.1, f6.1, f7.1, f8.1,
    f1.2.1, f2.2.1, f3.2.1, f4.2.1, f5.2.1, f6.2.1, f7.2.1, f8.2.1, ey, em, ed]
  simp [hm1, hm2, hd1, hd2]

theorem jsonMarshalString_dateText (y m d : Nat) (hy : y ≤ 9999) (hm : m ≤ 12) (hd : d ≤ 31) :
    jsonMarshalString (dateText y m d) = dquote :: (dateText y m d ++ [dquote]) := by
  have f1 := digitChar_facts (y / 1000) (by omega)
  have f2 := digitChar_facts (y / 100 % 10) (by omega)
  have f3 := digitChar_facts (y / 10 % 10) (by omega)
  have f4 := digitChar_facts (y % 10) (by omega)
  have f5 := digitChar_facts (m / 10) (by omega)
  have f6 := digitChar_facts (m % 10) (by omega)
  have f7 := digitChar_facts (d / 10) (by omega)
  have f8 := digitChar_facts (d % 10) (by omega)
  have fd : jsonEscape '-' = ['-'] := by decide
  simp only [jsonMarshalString, dateText, List.flatMap_cons, List.flatMap_nil, f1.2.2.2,
    f2.2.2.2, f3.2.2.2, f4.2.2.2, f5.2.2.2, f6.2.2.2, f7.2.2.2, f8.2.2.2, fd]
  simp

theorem Trim_quoted_dateText (y m d : Nat) (hy : y ≤ 9999) :
    Trim (dquote :: (dateText y m d ++ [dquote])) [dquote] = dateText y m d := by
  have f1 := (digitChar_facts (y / 1000) (by omega)).2.2.1
  have f8 := (digitChar_facts (d % 10) (by omega)).2.2.1
  simp [Trim, dateText, List.dropWhile, f1, f8]

theorem toInt64_toUint64 (x : Int) (h1 : -9223372036854775808 ≤ x) (h2 : x < 9223372036854775808) :
    toInt64 (toUint64 x) = x := wrapInt64_eq x h1 h2

theorem toUint64_lt (x : Int) : toUint64 x < 18446744073709551616 := by
  unfold toUint64
  norm_num only
  omega

theorem le_bytes (u : Nat) (h : u < 18446744073709551616) :
    u % 256 + u / 256 % 256 * 256 + u / 256 ^ 2 % 256 * 256 ^ 2 + u / 256 ^ 3 % 256 * 256 ^ 3
      + u / 256 ^ 4 % 256 * 256 ^ 4 + u / 256 ^ 5 % 256 * 256 ^ 5 + u / 256 ^ 6 % 256 * 256 ^ 6
      + u / 256 ^ 7 % 256 * 256 ^ 7 = u := by
  norm_num only
  omega

theorem ReadDateTime_AppendDateTime (dt : Int) (h1 : -9223372036854775808 ≤ dt)
    (h2 : dt < 9223372036854775808) :
    ReadDateTime (AppendDateTime [] dt) = (dt, [], true) := by
  simp only [AppendDateTime, ReadDateTime, List.nil_append]
  rw [le_bytes _ (toUint64_lt dt), toInt64_toUint64 dt h1 h2]

theorem DateTimeTime_seconds (sec : Int) :
    DateTimeTime (sec * 1000) = { sec := sec, nsec := 0, loc := Location.Local } := by
  have h1 : (sec * 1000).tdiv 1000 = sec := Int.mul_tdiv_cancel _ (by norm_num)
  have h2 : (sec * 1000).tmod 1000 = 0 := Int.mul_tmod_left _ _
  simp [DateTimeTime, Unix, h1, h2]

theorem digitChar_digitVal (c : Char) (h : isDigitChar c = true) :
    digitChar (digitVal c) = c ∧ digitVal c < 10 := by
  simp only [isDigitChar, decide_eq_true_eq] at h
  refine ⟨?_, by unfold digitVal; omega⟩
  unfold digitChar digitVal
  have : 48 + (c.toNat - 48) = c.toNat := by omega
  rw [this]
  exact Char.ofNat_toNat c

theorem dropWhile_quote_of_head (s : List Char) (h : s.head? ≠ some dquote) :
    s.dropWhile (fun c => [dquote].contains c) = s := by
  cases s with
  | nil => rfl
  | cons a t =>
    have ha : a ≠ dquote := by
      intro e; apply h; simp [e]
    simp [List.dropWhile, ha]

theorem Trim_of_no_quote (s : List Char) (h1 : s.head? ≠ some dquote)
    (h2 : s.getLast? ≠ some dquote) :
    Trim s [dquote] = s ∧ Trim (dquote :: (s ++ [dquote])) [dquote] = s := by
  have hr : s.reverse.dropWhile (fun c => [dquote].contains c) = s.reverse :=
    dropWhile_quote_of_head _ (by rw [List.head?_reverse]; exact h2)
  have hq : ([dquote].contains dquote) = true := by decide
  constructor
  · unfold Trim
    rw [dropWhile_quote_of_head s h1, hr, List.reverse_reverse]
  · unfold Trim
    rw [List.dropWhile_cons_of_pos (by exact hq)]
    cases s with
    | nil => simp [List.dropWhile, hq]
    | cons a t =>
      have hh : (a :: t ++ [dquote]).head? ≠ some dquote := by simpa using h1
      rw [dropWhile_quote_of_head _ hh, List.reverse_append, List.reverse_singleton,
        List.singleton_append, List.dropWhile_cons_of_pos (by exact hq), hr,
        List.reverse_reverse]

/-! ## Claims: the date codec -/

theorem Parse_error_of_none (s : List Char) (h : wireDate? s = none) :
    ∃ err, Parse s = Except.error err := by
  cases hp : Parse s with
  | error err => exact ⟨err, rfl⟩
  | ok t =>
    obtain ⟨y, m, d, hw, _⟩ := Parse_sound s t hp
    rw [h] at hw
    cases hw

/-- Claim C4: for every calendar day from 0001-01-01 through 9999-12-31, held
as a `RatingDate` at midnight UTC (the value `time.Parse` builds for it),
`MarshalJSON` produces the quoted text `YYYY-MM-DD` of that day and
`UnmarshalJSON` applied to those bytes succeeds and yields the same
`RatingDate`, whatever the target held before and whatever the local zone. -/
theorem UnmarshalJSON_MarshalJSON (zone : Int → Int) (rd : RatingDate) (year month day : Nat)
    (hy1 : 1 ≤ year) (hy2 : year ≤ 9999) (hm1 : 1 ≤ month) (hm2 : month ≤ 12)
    (hd1 : 1 ≤ day) (hd2 : day ≤ lastDayOfMonth year month) :
    MarshalJSON zone (Date year month day)
      = dquote :: (dateText year month day ++ [dquote]) ∧
    UnmarshalJSON rd (MarshalJSON zone (Date year month day))
      = (Date year month day, none) := by
  have hd3 := lastDayOfMonth_le year month
  have hdi : day ≤ daysIn month (year : Int) := by
    rw [daysIn_eq_lastDayOfMonth year month hm1 hm2]; exact hd2
  have hD := Date_Date zone (year : Int) month day (by omega) (by omega) hm1 hm2 hd1 hdi
  have hF := Format_of_Date zone _ year month day hy2 hm2 (by omega) hD
  have hM : MarshalJSON zone (Date year month day)
      = dquote :: (dateText year month day ++ [dquote]) := by
    rw [MarshalJSON, hF, jsonMarshalString_dateText year month day hy2 hm2 (by omega)]
  refine ⟨hM, ?_⟩
  rw [hM]
  simp only [UnmarshalJSON, Trim_quoted_dateText year month day hy2]
  rw [Parse_complete _ year month day (wireDate_dateText year month day hy2 hm1 hm2 hd1 hd2)]

/-- Witness for C4: 29 February 2024. -/
theorem UnmarshalJSON_MarshalJSON_witness :
    UnmarshalJSON zeroTime (MarshalJSON (fun _ => 0) (Date 2024 2 29))
      = (Date 2024 2 29, none) :=
  (UnmarshalJSON_MarshalJSON (fun _ => 0) zeroTime 2024 2 29 (by decide) (by decide) (by decide)
    (by decide) (by decide) (by decide)).2

/-- Claim C6: `UnmarshalJSON` parses strictly against `YYYY-MM-DD`: for every
input whose text (the bytes without the double quotes around them, as the
function trims them) is not exactly four digits, `-`, two digits, `-`, two
digits naming an existing month and a day that exists in that month, it
returns an error and leaves the target date unchanged. -/
theorem UnmarshalJSON_strict (rd : RatingDate) (b : List Char)
    (h : wireDate? (Trim b [dquote]) = none) :
    (UnmarshalJSON rd b).1 = rd ∧ (UnmarshalJSON rd b).2 ≠ none := by
  obtain ⟨err, he⟩ := Parse_error_of_none _ h
  simp [UnmarshalJSON, he]

/-- Witness for C6: the texts "2021-13-40", "21-01-01" and "" (as the JSON
string `""` and as no bytes at all) are rejected and the target is left
unchanged. -/
theorem UnmarshalJSON_strict_witness :
    ((UnmarshalJSON zeroTime "2021-13-40".toList).1 = zeroTime ∧
      (UnmarshalJSON zeroTime "2021-13-40".toList).2 ≠ none) ∧
    ((UnmarshalJSON zeroTime "21-01-01".toList).1 = zeroTime ∧
      (UnmarshalJSON zeroTime "21-01-01".toList).2 ≠ none) ∧
    ((UnmarshalJSON zeroTime [dquote, dquote]).1 = zeroTime ∧
      (UnmarshalJSON zeroTime [dquote, dquote]).2 ≠ none) ∧
    ((UnmarshalJSON zeroTime []).1 = zeroTime ∧
      (UnmarshalJSON zeroTime []).2 ≠ none) :=
  ⟨UnmarshalJSON_strict zeroTime "2021-13-40".toList (by decide),
   UnmarshalJSON_strict zeroTime "21-01-01".toList (by decide),
   UnmarshalJSON_strict zeroTime [dquote, dquote] (by decide),
   UnmarshalJSON_strict zeroTime [] (by decide)⟩

/-- Strictness on the text itself: a text with no double quote at either end
that is not of the wire form is rejected, handed over bare or as a JSON
string, and the target is left unchanged. -/
theorem UnmarshalJSON_strict_text (rd : RatingDate) (s : List Char)
    (h : wireDate? s = none) (h1 : s.head? ≠ some dquote) (h2 : s.getLast? ≠ some dquote) :
    ((UnmarshalJSON rd s).1 = rd ∧ (UnmarshalJSON rd s).2 ≠ none) ∧
    ((UnmarshalJSON rd (dquote :: (s ++ [dquote]))).1 = rd ∧
      (UnmarshalJSON rd (dquote :: (s ++ [dquote]))).2 ≠ none) := by
  obtain ⟨err, he⟩ := Parse_error_of_none _ h
  obtain ⟨t1, t2⟩ := Trim_of_no_quote s h1 h2
  simp [UnmarshalJSON, t1, t2, he]

theorem wireDate_some_form (s : List Char) (y m d : Nat) (h : wireDate? s = some (y, m, d)) :
    s = dateText y m d ∧ y ≤ 9999 ∧ 1 ≤ m ∧ m ≤ 12 ∧ 1 ≤ d ∧ d ≤ lastDayOfMonth y m := by
  unfold wireDate? at h
  split at h
  · rename_i y1 y2 y3 y4 s1 m1 m2 s2 d1 d2
    simp only at h
    split_ifs at h with hc
    obtain ⟨h1, h2, h3, h4, hs1, h5, h6, hs2, h7, h8, hm1, hm2, hd1, hd2⟩ := hc
    simp only [Option.some.injEq, Prod.mk.injEq] at h
    obtain ⟨hy, hm, hd⟩ := h
    obtain ⟨c1, b1⟩ := digitChar_digitVal y1 h1
    obtain ⟨c2, b2⟩ := digitChar_digitVal y2 h2
    obtain ⟨c3, b3⟩ := digitChar_digitVal y3 h3
    obtain ⟨c4, b4⟩ := digitChar_digitVal y4 h4
    obtain ⟨c5, b5⟩ := digitChar_digitVal m1 h5
    obtain ⟨c6, b6⟩ := digitChar_digitVal m2 h6
    obtain ⟨c7, b7⟩ := digitChar_digitVal d1 h7
    obtain ⟨c8, b8⟩ := digitChar_digitVal d2 h8
    have e1 : y / 1000 = digitVal y1 := by omega
    have e2 : y / 100 % 10 = digitVal y2 := by omega
    have e3 : y / 10 % 10 = digitVal y3 := by omega
    have e4 : y % 10 = digitVal y4 := by omega
    have e5 : m / 10 = digitVal m1 := by omega
    have e6 : m % 10 = digitVal m2 := by omega
    have e7 : d / 10 = digitVal d1 := by omega
    have e8 : d % 10 = digitVal d2 := by omega
    refine ⟨?_, by omega, by omega, by omega, by omega, ?_⟩
    · simp only [dateText, e1, e2, e3, e4, e5, e6, e7, e8, c1, c2, c3, c4, c5, c6, c7, c8,
        hs1, hs2]
    · rw [← hy, ← hm, ← hd]; exact hd2
  · simp at h

theorem NewDateTimeFromTime_seconds (t : Time) (hn : t.nsec = 0)
    (h1 : -9223372036854775 ≤ t.sec) (h2 : t.sec < 9223372036854775) :
    NewDateTimeFromTime t = t.sec * 1000 := by
  unfold NewDateTimeFromTime
  rw [hn]
  have : t.sec * 1000 + ((0 : Nat) : Int) / 1000000 = t.sec * 1000 := by simp
  rw [this]
  exact toInt64_toUint64 _ (by omega) (by omega)

/-- Where the local zone lies at or east of UTC (an offset from 0 to less than
24 hours at every instant), the round trip wire to storage to wire gives back
every valid wire text. -/
theorem wireStorageWire_east (zone : Int → Int) (hz : ∀ t, 0 ≤ zone t ∧ zone t < 86400)
    (s : List Char) (y m d : Nat) (h : wireDate? s = some (y, m, d)) :
    wireStorageWire zone (dquote :: (s ++ [dquote])) = some (dquote :: (s ++ [dquote])) := by
  obtain ⟨hs, hy, hm1, hm2, hd1, hd2⟩ := wireDate_some_form s y m d h
  have hd3 := lastDayOfMonth_le y m
  have hdi : d ≤ daysIn m (y : Int) := by
    rw [daysIn_eq_lastDayOfMonth y m hm1 hm2]; exact hd2
  obtain ⟨D, hsec, hD, hlo, hhi, habs⟩ :=
    Date_days (y : Int) m d (by omega) (by omega) hm1 hm2 hd1 hdi
  have hU : unixToAbsolute = 9223372028715321600 := by decide
  have hJ : UnmarshalJSON zeroTime (dquote :: (s ++ [dquote]))
      = (Date (y : Int) m d, none) := by
    simp only [UnmarshalJSON]
    rw [hs, Trim_quoted_dateText y m d hy, ← hs, Parse_complete s y m d h]
  have hB : NewDateTimeFromTime (Date (y : Int) m d)
      = (Date (y : Int) m d).sec * 1000 :=
    NewDateTimeFromTime_seconds _ rfl (by rw [hsec]; exact hlo) (by rw [hsec]; exact hhi)
  have hR : UnmarshalBSONValue zeroTime (MarshalBSONValue (Date (y : Int) m d)).2
      = Outcome.returned (Time.mk (Date (y : Int) m d).sec 0 Location.Local,
          false) := by
    simp only [MarshalBSONValue, UnmarshalBSONValue, hB]
    rw [ReadDateTime_AppendDateTime _ (by rw [hsec]; omega) (by rw [hsec]; omega)]
    simp [DateTimeTime_seconds]
  have hDate : Time.Date zone (Time.mk (Date (y : Int) m d).sec 0 Location.Local)
      = ((y : Int), m, d) := by
    simp only [Time.Date, Time.abs, hsec]
    have hzz := hz (((D * 86400 : Nat) : Int) - unixToAbsolute)
    generalize zone (((D * 86400 : Nat) : Int) - unixToAbsolute) = z at hzz ⊢
    have e : ((D * 86400 : Nat) : Int) - unixToAbsolute + z + unixToAbsolute
        = ((D * 86400 + z.toNat : Nat) : Int) := by omega
    rw [e, toUint64_eq _ (by omega) (by omega), Int.toNat_ofNat]
    exact habs _ (by omega)
  have hF := Format_of_Date zone _ y m d hy hm2 (by omega) hDate
  simp only [wireStorageWire, hJ, hR, MarshalJSON, hF]
  rw [jsonMarshalString_dateText y m d hy hm2 (by omega), hs]

set_option maxRecDepth 100000 in
/-- Claim C5, evaluated on the code: with a local zone five hours west of UTC
the round trip wire to storage to wire turns "2024-01-01" into "2023-12-31":
`UnmarshalBSONValue` builds the date in the local zone, and `MarshalJSON`
formats the local calendar day. -/
theorem wireStorageWire_west :
    wireStorageWire (fun _ => -18000) (dquote :: ("2024-01-01".toList ++ [dquote]))
      = some (dquote :: ("2023-12-31".toList ++ [dquote])) := by
  decide

/-! ## Theorems: handlers and the store -/

theorem find_eq_some_of_mem (docs : List Document) (u : String)
    (h : ∃ d ∈ docs, d.Username = u) :
    ∃ r, docs.find? (fun d => d.Username == u) = some r ∧ r ∈ docs ∧ r.Username = u := by
  obtain ⟨d, hd, hu⟩ := h
  cases hf : docs.find? (fun d => d.Username == u) with
  | some r =>
    refine ⟨r, rfl, List.mem_of_find?_eq_some hf, ?_⟩
    simpa using List.find?_some hf
  | none =>
    rw [List.find?_eq_none] at hf
    exact absurd (by simpa using hu) (hf d hd)

theorem find_eq_none_of_not_mem (docs : List Document) (u : String)
    (h : ∀ d ∈ docs, d.Username ≠ u) :
    docs.find? (fun d => d.Username == u) = none := by
  rw [List.find?_eq_none]
  intro d hd
  simpa using h d hd

theorem saveUserData_ne_false (f : Faults) (m : Mongo) (userData : UserData) :
    (saveUserData f m userData).1 ≠ Outcome.returned false := by
  unfold saveUserData
  simp only []
  split_ifs <;> simp

theorem UnmarshalBSONValue_of_length (rd : RatingDate) (raw : List Nat) (h : 8 ≤ raw.length) :
    ∃ t, UnmarshalBSONValue rd raw = Outcome.returned (t, false) := by
  rcases raw with _ | ⟨b0, _ | ⟨b1, _ | ⟨b2, _ | ⟨b3, _ | ⟨b4, _ | ⟨b5, _ | ⟨b6, _ | ⟨b7, rest⟩⟩⟩⟩⟩⟩⟩⟩
    <;> simp at h
  simp [UnmarshalBSONValue, ReadDateTime]

theorem decodeRatings_of_length (l : List StoredRating) (h : ∀ s ∈ l, 8 ≤ s.Date.length) :
    ∃ rs, decodeRatings l = Outcome.returned rs := by
  induction l with
  | nil => exact ⟨[], rfl⟩
  | cons s rest ih =>
    obtain ⟨t, ht⟩ := UnmarshalBSONValue_of_length zeroTime s.Date (h s (List.mem_cons_self _ _))
    obtain ⟨rs, hrs⟩ := ih (fun x hx => h x (List.mem_cons_of_mem _ hx))
    simp [decodeRatings, decodeStoredRating, ht, hrs]

theorem getUserData_of_mem (f : Faults) (m : Mongo) (username : String)
    (hfind : f.findErr = false) (h : ∃ d ∈ m.docs, d.Username = username)
    (hw : ∀ d ∈ m.docs, ∀ s ∈ d.Ratings, 8 ≤ s.Date.length) :
    ∃ r, getUserData f m username = Outcome.returned (some r) := by
  obtain ⟨d, hd, hmem, _⟩ := find_eq_some_of_mem m.docs username h
  obtain ⟨rs, hrs⟩ := decodeRatings_of_length d.Ratings (hw d hmem)
  simp [getUserData, hfind, hd, decodeDocument, hrs]


theorem toInt64_range (u : Nat) :
    -9223372036854775808 ≤ toInt64 u ∧ toInt64 u < 9223372036854775808 := by
  unfold toInt64
  norm_num only
  split_ifs <;> omega

theorem decodeStoredRating_encodeRating (rating : Rating) :
    decodeStoredRating (encodeRating rating) =
      Outcome.returned { rating with Date := DateTimeTime (NewDateTimeFromTime rating.Date) } := by
  have hr := toInt64_range (toUint64 (rating.Date.sec * 1000 + (rating.Date.nsec : Int) / 1000000))
  simp only [decodeStoredRating, encodeRating, MarshalBSONValue, UnmarshalBSONValue]
  rw [ReadDateTime_AppendDateTime _ (by unfold NewDateTimeFromTime; exact hr.1)
    (by unfold NewDateTimeFromTime; exact hr.2)]
  simp

/-- A document written by the program decodes again: the fetch gives back the
record that was saved, with every date at the same millisecond and in the
local zone. -/
theorem decodeDocument_encodeUserData (id : Nat) (userData : UserData) :
    decodeDocument (encodeUserData id userData) =
      Outcome.returned
        { ID := some id, Username := userData.Username,
          Ratings := userData.Ratings.map
            (fun r => { r with Date := DateTimeTime (NewDateTimeFromTime r.Date) }),
          Tags := userData.Tags } := by
  have h : ∀ l : List Rating, decodeRatings (l.map encodeRating) =
      Outcome.returned
        (l.map (fun r => { r with Date := DateTimeTime (NewDateTimeFromTime r.Date) })) := by
    intro l
    induction l with
    | nil => rfl
    | cons r rest ih =>
      simp only [List.map_cons, decodeRatings, decodeStoredRating_encodeRating, ih]
  simp only [decodeDocument, encodeUserData, h]

/-! ## Claims: handlers and the store -/

/-- Claim C8: for every record `r` that `getUserData` fetches with an identity
and every rating `g` that decodes and passes `validRating`, `RateHandler`
(the write succeeding) makes exactly one write, a
`ReplaceOne` keyed by the identity of `r` and not an insert, of a record whose
`Ratings` is `r.Ratings` with `g` appended, whose `Tags` is the tag merge of
`r.Tags` with `g.Tags` and whose `ID` and `Username` are those of `r`, and
responds Accepted; the collection then holds the stored form of that record
in the place of the document with that identity. -/
theorem RateHandler_appends (f : Faults) (m : Mongo) (username : String)
    (body : Option RatingBody) (r : UserData) (id : Nat) (g : Rating)
    (hwrite : f.writeErr = false)
    (hr : getUserData f m username = Outcome.returned (some r)) (hid : r.ID = some id)
    (hg : decodeRating body = (g, false)) (hv : validRating (some g) = true) :
    RateHandler f m username body =
      (Outcome.returned Status.Accepted,
        { docs := replaceFirst id
            (encodeUserData id
              { ID := r.ID, Username := r.Username, Ratings := r.Ratings ++ [g],
                Tags := mergeSpec r.Tags g.Tags }) m.docs,
          writes := m.writes ++ [StoreOp.ReplaceOne id
            { ID := r.ID, Username := r.Username, Ratings := r.Ratings ++ [g],
              Tags := mergeSpec r.Tags g.Tags }] }) := by
  simp only [RateHandler, hr, hg, hv, rate, updateTags_eq, saveUserData, hid, ReplaceOne,
    hwrite, Bool.false_eq_true, if_false, Bool.not_true]

/-- Counterexample for C9 as stated: the collection holds a record for "alice",
the lookup returns an error (a timeout, say), `getUserData` returns nil, and
`NewHandler` inserts a second record for "alice" and responds Created. -/
theorem NewHandler_lookup_error_inserts :
    (∃ d ∈ [({ ID := 1, Username := "alice", Ratings := [], Tags := ["work"] } : Document)],
      d.Username = "alice") ∧
    NewHandler { findErr := true, writeErr := false }
      { docs := [{ ID := 1, Username := "alice", Ratings := [], Tags := ["work"] }],
        writes := [] } "alice" =
      (Outcome.returned Status.Created,
        { docs := [{ ID := 1, Username := "alice", Ratings := [], Tags := ["work"] },
                   { ID := 2, Username := "alice", Ratings := [], Tags := [] }],
          writes := [StoreOp.InsertOne
            { ID := none, Username := "alice", Ratings := [], Tags := [] }] }) := by
  decide

/-- Claim C9, amended: `NewHandler` decides on what `getUserData` returns. If it
returns a record, `NewHandler` responds Conflict and makes no write, leaving
the store unchanged. If it returns nil, `NewHandler` makes exactly one write,
an `InsertOne` of a record without identity, with that user name, empty
`Ratings` and empty `Tags`, and (the insert succeeding) responds Created.
`getUserData` returns nil when the lookup returns an error, also when the
collection holds a record for the user name; when the lookup is answered, it
returns nil if the collection holds no record for the user name and a record
if it holds one (the stored dates being eight bytes long at least). After a
create answered Created or Conflict, with the lookup answered and the insert
succeeding, a second create responds Conflict and leaves the store
unchanged. -/
theorem NewHandler_conflict_or_insert (f : Faults) (m : Mongo) (username : String) :
    (∀ r, getUserData f m username = Outcome.returned (some r) →
      NewHandler f m username = (Outcome.returned Status.Conflict, m)) ∧
    (getUserData f m username = Outcome.returned none →
      (NewHandler f m username).2.writes = m.writes ++ [StoreOp.InsertOne
        { ID := none, Username := username, Ratings := [], Tags := [] }] ∧
      (f.writeErr = false →
        NewHandler f m username =
          (Outcome.returned Status.Created,
            { docs := m.docs ++
                [{ ID := freshID m.docs, Username := username, Ratings := [], Tags := [] }],
              writes := m.writes ++ [StoreOp.InsertOne
                { ID := none, Username := username, Ratings := [], Tags := [] }] }))) ∧
    (f.findErr = true → getUserData f m username = Outcome.returned none) ∧
    (f.findErr = false → (∀ d ∈ m.docs, d.Username ≠ username) →
      getUserData f m username = Outcome.returned none) ∧
    (f.findErr = false → (∃ d ∈ m.docs, d.Username = username) →
      (∀ d ∈ m.docs, ∀ s ∈ d.Ratings, 8 ≤ s.Date.length) →
      ∃ r, getUserData f m username = Outcome.returned (some r)) ∧
    (f.findErr = false → f.writeErr = false →
      (∀ code, getUserData f m username ≠ Outcome.exited code) →
      NewHandler f (NewHandler f m username).2 username =
        (Outcome.returned Status.Conflict, (NewHandler f m username).2)) := by
  have hc : ∀ (m1 : Mongo) (r : UserData),
      getUserData f m1 username = Outcome.returned (some r) →
      NewHandler f m1 username = (Outcome.returned Status.Conflict, m1) := by
    intro m1 r hr
    simp [NewHandler, hr]
  have hi : getUserData f m username = Outcome.returned none → f.writeErr = false →
      NewHandler f m username =
        (Outcome.returned Status.Created,
          { docs := m.docs ++
              [{ ID := freshID m.docs, Username := username, Ratings := [], Tags := [] }],
            writes := m.writes ++ [StoreOp.InsertOne
              { ID := none, Username := username, Ratings := [], Tags := [] }] }) := by
    intro hn hw
    simp [NewHandler, hn, saveUserData, InsertOne, hw, encodeUserData]
  refine ⟨hc m, ?_, ?_, ?_, ?_, ?_⟩
  · intro hn
    refine ⟨?_, hi hn⟩
    cases hw : f.writeErr <;> simp [NewHandler, hn, saveUserData, InsertOne, hw]
  · intro hf
    simp [getUserData, hf]
  · intro hf h
    simp [getUserData, hf, find_eq_none_of_not_mem m.docs username h]
  · intro hf h hw
    exact getUserData_of_mem f m username hf h hw
  · intro hf hw hne
    cases hg : getUserData f m username with
    | exited code => exact absurd hg (hne code)
    | returned o =>
      cases o with
      | some r =>
        rw [hc m r hg]
        exact hc m r hg
      | none =>
        rw [hi hg hw]
        have hnone : m.docs.find? (fun d => d.Username == username) = none := by
          simp only [getUserData, hf, Bool.false_eq_true, if_false] at hg
          cases hfd : m.docs.find? (fun d => d.Username == username) with
          | none => rfl
          | some d =>
            rw [hfd] at hg
            simp only at hg
            cases hdd : decodeDocument d with
            | exited c => rw [hdd] at hg; simp at hg
            | returned u => rw [hdd] at hg; simp at hg
        apply hc _ { ID := some (freshID m.docs), Username := username, Ratings := [], Tags := [] }
        simp [getUserData, hf, List.find?_append, hnone, decodeDocument, decodeRatings]

/-- Witness for C9: "alice" is created in an empty collection, and the second
create is answered with Conflict. -/
theorem NewHandler_conflict_or_insert_witness :
    NewHandler { findErr := false, writeErr := false } { docs := [], writes := [] } "alice" =
      (Outcome.returned Status.Created,
        { docs := [{ ID := 1, Username := "alice", Ratings := [], Tags := [] }],
          writes := [StoreOp.InsertOne
            { ID := none, Username := "alice", Ratings := [], Tags := [] }] }) ∧
    NewHandler { findErr := false, writeErr := false }
      (NewHandler { findErr := false, writeErr := false }
        { docs := [], writes := [] } "alice").2 "alice" =
      (Outcome.returned Status.Conflict,
        (NewHandler { findErr := false, writeErr := false }
          { docs := [], writes := [] } "alice").2) :=
  ⟨((NewHandler_conflict_or_insert { findErr := false, writeErr := false }
      { docs := [], writes := [] } "alice").2.1 (by decide)).2 rfl,
   (NewHandler_conflict_or_insert { findErr := false, writeErr := false }
      { docs := [], writes := [] } "alice").2.2.2.2.2 rfl rfl (fun _ h => by cases h)⟩

/-- Claim C10, evaluated on the code: when the write returns an error,
`saveUserData` does not return false: `log.Fatal` ends the process, so the
handler writes no status at all. `saveUserData` never returns false, and
neither handler ever responds InternalServerError. -/
theorem saveUserData_write_error_exits :
    (∀ (fe : Bool) (m : Mongo) (userData : UserData),
      (saveUserData { findErr := fe, writeErr := true } m userData).1 = Outcome.exited 1) ∧
    (∀ (f : Faults) (m : Mongo) (userData : UserData),
      (saveUserData f m userData).1 ≠ Outcome.returned false) ∧
    (∀ (f : Faults) (m : Mongo) (username : String),
      (NewHandler f m username).1 ≠ Outcome.returned Status.InternalServerError) ∧
    (∀ (f : Faults) (m : Mongo) (username : String) (body : Option RatingBody),
      (RateHandler f m username body).1 ≠ Outcome.returned Status.InternalServerError) ∧
    (NewHandler { findErr := false, writeErr := true } { docs := [], writes := [] } "alice").1 =
      Outcome.exited 1 ∧
    (RateHandler { findErr := false, writeErr := true }
      { docs := [{ ID := 1, Username := "alice", Ratings := [], Tags := [] }],
        writes := [] } "alice"
      (some { date := none, description := "", feeling := "Good", tags := [] })).1 =
      Outcome.exited 1 := by
  refine ⟨?_, saveUserData_ne_false, ?_, ?_, by decide, by decide⟩
  · intro fe m ud
    cases h : ud.ID <;> simp [saveUserData, h, InsertOne, ReplaceOne]
  · intro f m u
    unfold NewHandler
    cases getUserData f m u with
    | exited c => simp
    | returned o =>
      cases o with
      | some r => simp
      | none =>
        simp only
        have hs := saveUserData_ne_false f m
          { ID := none, Username := u, Ratings := [], Tags := [] }
        rcases hsv : saveUserData f m { ID := none, Username := u, Ratings := [], Tags := [] }
          with ⟨o, m1⟩
        rw [hsv] at hs
        rcases o with b | c
        · cases b
          · exact absurd rfl hs
          · simp
        · simp
  · intro f m u body
    unfold RateHandler
    cases getUserData f m u with
    | exited c => simp
    | returned o =>
      cases o with
      | none => simp
      | some r =>
        simp only
        split_ifs
        · simp
        · simp
        · have hs := saveUserData_ne_false f m (rate r (decodeRating body).1)
          rcases hsv : saveUserData f m (rate r (decodeRating body).1) with ⟨o, m1⟩
          rw [hsv] at hs
          rcases o with b | c
          · cases b
            · exact absurd rfl hs
            · simp
          · simp


/-! ## The example of two submissions for `RateHandler` -/

set_option maxRecDepth 100000 in
/-- Witness for C8: the example of the spec. From a fetched record of "alice"
with empty `Ratings` and `Tags`, the submission of 2024-01-01, Good, ["work"]
and then of 2024-01-02, Sad, ["work", "home"] (on the record fetched again,
whose stored date comes back in the local zone) is each answered Accepted
after one `ReplaceOne`; the record fetched afterwards has the two ratings in
submission order and `Tags` equal to ["work", "home"]. -/
theorem RateHandler_appends_witness :
    RateHandler { findErr := false, writeErr := false }
      { docs := [{ ID := 1, Username := "alice", Ratings := [], Tags := [] }],
        writes := [] } "alice"
      (some { date := some (dquote :: ("2024-01-01".toList ++ [dquote])), description := "",
              feeling := "Good", tags := ["work"] }) =
      (Outcome.returned Status.Accepted,
        { docs := [encodeUserData 1
            { ID := some 1, Username := "alice",
              Ratings := [{ Date := Date 2024 1 1, Description := "",
                            Feeling := "Good", Tags := ["work"] }],
              Tags := ["work"] }],
          writes := [StoreOp.ReplaceOne 1
            { ID := some 1, Username := "alice",
              Ratings := [{ Date := Date 2024 1 1, Description := "",
                            Feeling := "Good", Tags := ["work"] }],
              Tags := ["work"] }] }) ∧
    RateHandler { findErr := false, writeErr := false }
      { docs := [encodeUserData 1
          { ID := some 1, Username := "alice",
            Ratings := [{ Date := Date 2024 1 1, Description := "",
                          Feeling := "Good", Tags := ["work"] }],
            Tags := ["work"] }],
        writes := [] } "alice"
      (some { date := some (dquote :: ("2024-01-02".toList ++ [dquote])), description := "",
              feeling := "Sad", tags := ["work", "home"] }) =
      (Outcome.returned Status.Accepted,
        { docs := [encodeUserData 1
            { ID := some 1, Username := "alice",
              Ratings := [{ Date := Date 2024 1 1, Description := "",
                            Feeling := "Good", Tags := ["work"] },
                          { Date := Date 2024 1 2, Description := "",
                            Feeling := "Sad", Tags := ["work", "home"] }],
              Tags := ["work", "home"] }],
          writes := [StoreOp.ReplaceOne 1
            { ID := some 1, Username := "alice",
              Ratings := [{ Date := Time.mk 1704067200 0 Location.Local, Description := "",
                            Feeling := "Good", Tags := ["work"] },
                          { Date := Date 2024 1 2, Description := "",
                            Feeling := "Sad", Tags := ["work", "home"] }],
              Tags := ["work", "home"] }] }) ∧
    getUserData { findErr := false, writeErr := false }
      { docs := [encodeUserData 1
          { ID := some 1, Username := "alice",
            Ratings := [{ Date := Date 2024 1 1, Description := "",
                          Feeling := "Good", Tags := ["work"] },
                        { Date := Date 2024 1 2, Description := "",
                          Feeling := "Sad", Tags := ["work", "home"] }],
            Tags := ["work", "home"] }],
        writes := [] } "alice" =
      Outcome.returned (some
        { ID := some 1, Username := "alice",
          Ratings := [{ Date := Time.mk 1704067200 0 Location.Local, Description := "",
                        Feeling := "Good", Tags := ["work"] },
                      { Date := Time.mk 1704153600 0 Location.Local, Description := "",
                        Feeling := "Sad", Tags := ["work", "home"] }],
          Tags := ["work", "home"] }) := by
  refine ⟨?_, ?_, by decide⟩
  · rw [RateHandler_appends { findErr := false, writeErr := false }
      { docs := [{ ID := 1, Username := "alice", Ratings := [], Tags := [] }],
        writes := [] } "alice" _
      { ID := some 1, Username := "alice", Ratings := [], Tags := [] } 1
      { Date := Date 2024 1 1, Description := "", Feeling := "Good",
        Tags := ["work"] } rfl (by decide) rfl (by decide) (by decide)]
    decide
  · rw [RateHandler_appends { findErr := false, writeErr := false }
      { docs := [encodeUserData 1
          { ID := some 1, Username := "alice",
            Ratings := [{ Date := Date 2024 1 1, Description := "",
                          Feeling := "Good", Tags := ["work"] }],
            Tags := ["work"] }],
        writes := [] } "alice" _
      { ID := some 1, Username := "alice",
        Ratings := [{ Date := Time.mk 1704067200 0 Location.Local, Description := "",
                      Feeling := "Good", Tags := ["work"] }],
        Tags := ["work"] } 1
      { Date := Date 2024 1 2, Description := "", Feeling := "Sad",
        Tags := ["work", "home"] } rfl (by decide) rfl (by decide) (by decide)]
    decide

end MyDay
